import Mathlib

/-!
Shallow embedding of `airtravel.py`: a seat-allocation model for passenger
flights.  Python strings are modelled as `String`/`List Char` over the ASCII
fragment, Python `None`-or-string cells as `Option String`, the seating
structure `[None] + [{letter: None for letter in seats} for _ in rows]` as a
`List (Option SeatRow)` whose rows are association lists, and each mutating
method as a pure function returning the raised error (if any) together with
the post-state, so that absence of partial mutation is expressible.
-/

namespace AirTravel

/-! ### ASCII models of the Python `str` predicates -/

/-- ASCII model of a character for which Python `str.isdigit` holds. -/
def pyIsDigitChar (c : Char) : Bool := 48 ≤ c.toNat && c.toNat ≤ 57

/-- ASCII uppercase letter. -/
def pyIsUpperChar (c : Char) : Bool := 65 ≤ c.toNat && c.toNat ≤ 90

/-- ASCII lowercase letter. -/
def pyIsLowerChar (c : Char) : Bool := 97 ≤ c.toNat && c.toNat ≤ 122

/-- ASCII model of an alphabetic (cased) character. -/
def pyIsAlphaChar (c : Char) : Bool := pyIsUpperChar c || pyIsLowerChar c

/-- ASCII whitespace as stripped by Python `int(str)`: TAB..CR and space. -/
def pyIsSpaceChar (c : Char) : Bool := c.toNat = 32 || (9 ≤ c.toNat && c.toNat ≤ 13)

/-- Python `s.isalpha()`: non-empty and every character alphabetic. -/
def pyIsAlpha (l : List Char) : Bool := !l.isEmpty && l.all pyIsAlphaChar

/-- Python `s.isupper()`: at least one cased character and every cased
character uppercase. -/
def pyIsUpper (l : List Char) : Bool :=
  !(l.filter pyIsAlphaChar).isEmpty && (l.filter pyIsAlphaChar).all pyIsUpperChar

/-- Python `s.isdigit()` (ASCII): non-empty and every character a digit. -/
def pyIsDigit (l : List Char) : Bool := !l.isEmpty && l.all pyIsDigitChar

/-- Numeric value of an ASCII digit character. -/
def digitVal (c : Char) : Nat := c.toNat - 48

/-- Value of a big-endian list of decimal digit characters. -/
def decVal (l : List Char) : Nat := l.foldl (fun a c => a * 10 + digitVal c) 0

/-- After the first digit, Python's base-10 integer literal allows groups
`(underscore? digit)*`: an underscore must be followed by a digit. -/
def udTail : List Char → Bool
  | [] => true
  | c :: rest =>
    if c = '_' then
      match rest with
      | [] => false
      | d :: rest2 => pyIsDigitChar d && udTail rest2
    else pyIsDigitChar c && udTail rest

/-- Digit string with optional single underscores between digits
(the unsigned part of a Python base-10 integer literal). -/
def udOk : List Char → Bool
  | [] => false
  | c :: rest => pyIsDigitChar c && udTail rest

/-- Strip leading and trailing ASCII whitespace. -/
def stripWs (l : List Char) : List Char :=
  ((l.dropWhile pyIsSpaceChar).reverse.dropWhile pyIsSpaceChar).reverse

/-- Value of an underscore-grouped digit string. -/
def udVal (l : List Char) : Nat := decVal (l.filter (fun c => c ≠ '_'))

/-- The whitespace-stripped body of a Python base-10 integer literal: one
optional sign, then digits with optional single underscores between them. -/
def pyIntCore : List Char → Option Int
  | [] => none
  | c :: rest =>
    if c = '+' then (if udOk rest then some (Int.ofNat (udVal rest)) else none)
    else if c = '-' then (if udOk rest then some (-(Int.ofNat (udVal rest))) else none)
    else if udOk (c :: rest) then some (Int.ofNat (udVal (c :: rest))) else none

/-- Model of Python `int(s)` in base 10 (ASCII fragment): strip surrounding
whitespace, then parse the signed literal; `none` models the raised
`ValueError`. -/
def pyInt (l : List Char) : Option Int := pyIntCore (stripWs l)

/-! ### Decimal formatting, as used by `"{}{}".format(row, letter)` -/

/-- Fuel-driven big-endian decimal digits of `n` (empty for `n = 0`). -/
def natCharsAux : Nat → Nat → List Char
  | 0, _ => []
  | fuel+1, n => if n = 0 then [] else natCharsAux fuel (n / 10) ++ [Nat.digitChar (n % 10)]

/-- Decimal representation of a natural number, as Python `str(n)`. -/
def natChars (n : Nat) : List Char := if n = 0 then ['0'] else natCharsAux n n

/-- The seat designator `"{row}{letter}"`. -/
def seatName (row : Nat) (letter : Char) : String := String.mk (natChars row ++ [letter])

/-! ### Aircraft -/

/-- An aircraft variant: both variants of the source return
`range(1, numRows+1)` together with a string of seat letters from
`seating_plan`, so a variant is determined by its registration, model name,
row count and letter list. -/
structure Aircraft where
  registration : String
  model : String
  planRows : Nat
  planLetters : List Char
deriving DecidableEq

/-- The row numbers of the seating plan, `range(1, planRows+1)`. -/
def Aircraft.seatingRows (a : Aircraft) : List Nat := List.range' 1 a.planRows

/-- `Boeing777`: `seating_plan` is `range(1, 56), "ABCDEFGHJK"`. -/
def boeing777 (reg : String) : Aircraft := ⟨reg, "Boeing 777", 55, "ABCDEFGHJK".toList⟩

/-- `AirbusA319`: `seating_plan` is `range(1, 23), "ABCDEF"`. -/
def airbusA319 (reg : String) : Aircraft := ⟨reg, "Airbus A319", 22, "ABCDEF".toList⟩

/-- `Aircraft.num_seats`: rows times letters. -/
def Aircraft.num_seats (a : Aircraft) : Nat := a.seatingRows.length * a.planLetters.length

/-! ### Errors -/

/-- The `ValueError`s (and the one `IndexError`) the source can raise,
one constructor per raise site. -/
inductive FlightError where
  | noAirlineCode
  | invalidAirlineCode
  | invalidRouteNumber
  | indexError
  | invalidSeatLetter
  | invalidSeatRow
  | seatTaken
  | emptySeat
deriving DecidableEq

/-- Decidable equality of `Except` results, for evaluating concrete
scenarios. -/
instance exceptDecEq {ε α : Type} [DecidableEq ε] [DecidableEq α] :
    DecidableEq (Except ε α) := fun x y =>
  match x, y with
  | .error e1, .error e2 =>
    if h : e1 = e2 then .isTrue (by rw [h]) else .isFalse (by simp [h])
  | .error _, .ok _ => .isFalse (by simp)
  | .ok _, .error _ => .isFalse (by simp)
  | .ok a, .ok b =>
    if h : a = b then .isTrue (by rw [h]) else .isFalse (by simp [h])

/-- The spec's `InvalidFormat` class: any of the three flight-number
construction errors. -/
def FlightError.isInvalidFormat : FlightError → Bool
  | .noAirlineCode => true
  | .invalidAirlineCode => true
  | .invalidRouteNumber => true
  | _ => false

/-! ### The seating structure -/

/-- One row dictionary `{letter: occupant-or-None}`, as an association list
in key insertion order (Python dicts preserve insertion order). -/
abbrev SeatRow := List (Char × Option String)

/-- The seating list: index 0 is the padding `None`, index `r` the dict of
row `r`. -/
abbrev Seating := List (Option SeatRow)

/-- The keys of a row dictionary. -/
def rowKeys (r : SeatRow) : List Char := r.map Prod.fst

/-- Dict lookup `r[c]` (defaulting to `None` off the key set, which the
guarded source paths never reach). -/
def rowLookup (r : SeatRow) (c : Char) : Option String :=
  match r.find? (fun p => p.1 = c) with
  | some p => p.2
  | none => none

/-- Dict assignment `r[c] = v`: update an existing key in place, append a
missing one. -/
def rowSet (r : SeatRow) (c : Char) (v : Option String) : SeatRow :=
  if r.any (fun p => p.1 = c) then r.map (fun p => if p.1 = c then (c, v) else p)
  else r ++ [(c, v)]

/-- First-occurrence deduplication with an accumulator of seen keys. -/
def dedupAux : List Char → List Char → List Char
  | [], _ => []
  | c :: rest, seen =>
    if c ∈ seen then dedupAux rest seen else c :: dedupAux rest (c :: seen)

/-- Keys of a dict comprehension over `l`: first occurrences, in order. -/
def dedupF (l : List Char) : List Char := dedupAux l []

/-- The dict comprehension `{letter: None for letter in letters}`. -/
def mkRow (letters : List Char) : SeatRow := (dedupF letters).map (fun c => (c, none))

/-- Read `seating[row][letter]`. -/
def getSeat (s : Seating) (row : Nat) (letter : Char) : Option String :=
  match s[row]? with
  | some (some r) => rowLookup r letter
  | _ => none

/-- Write `seating[row][letter] = v`. -/
def setSeat (s : Seating) (row : Nat) (letter : Char) (v : Option String) : Seating :=
  match s[row]? with
  | some (some r) => s.set row (some (rowSet r letter v))
  | _ => s

/-! ### Flight -/

/-- A `Flight` object: number, bound aircraft, seating list. -/
structure Flight where
  number : String
  aircraft : Aircraft
  seating : Seating
deriving DecidableEq

/-- `[None] + [{letter: None for letter in seats} for _ in rows]`. -/
def mkSeating (a : Aircraft) : Seating :=
  none :: a.seatingRows.map (fun _ => some (mkRow a.planLetters))

/-- `Flight.__init__`: the three flight-number checks, then the empty
seating list. -/
def mkFlight (number : String) (aircraft : Aircraft) : Except FlightError Flight :=
  if !pyIsAlpha (number.toList.take 2) then .error .noAirlineCode
  else if !pyIsUpper (number.toList.take 2) then .error .invalidAirlineCode
  else if !(pyIsDigit (number.toList.drop 2) && decVal (number.toList.drop 2) ≤ 9999) then
    .error .invalidRouteNumber
  else .ok ⟨number, aircraft, mkSeating aircraft⟩

/-- `Flight.airline`: the first two characters of the number. -/
def Flight.airline (f : Flight) : String := String.mk (f.number.toList.take 2)

/-- `Flight.aircraft_model`. -/
def Flight.aircraft_model (f : Flight) : String := f.aircraft.model

/-- `Flight._parse_seat`: last character is the letter (IndexError on the
empty string), the rest must `int`-parse to a row of the plan. -/
def parse_seat (a : Aircraft) (seat : String) : Except FlightError (Nat × Char) :=
  match seat.toList.getLast? with
  | none => .error .indexError
  | some letter =>
    if letter ∈ a.planLetters then
      match pyInt seat.toList.dropLast with
      | none => .error .invalidSeatRow
      | some row =>
        if 1 ≤ row ∧ row ≤ (a.planRows : Int) then .ok (row.toNat, letter)
        else .error .invalidSeatRow
    else .error .invalidSeatLetter

/-- `Flight.allocate_seat`: parse, fail `seatTaken` on an occupied cell,
otherwise write the passenger.  The second component is the post-state. -/
def allocate_seat (f : Flight) (seat passenger : String) :
    Except FlightError Unit × Flight :=
  match parse_seat f.aircraft seat with
  | .error e => (.error e, f)
  | .ok (row, letter) =>
    if (getSeat f.seating row letter).isSome then (.error .seatTaken, f)
    else (.ok (), { f with seating := setSeat f.seating row letter (some passenger) })

/-- `Flight.relocate_passenger`: parse the source seat, fail `emptySeat` if
unoccupied, parse the destination, fail `seatTaken` if occupied, then copy
the occupant to the destination and clear the source. -/
def relocate_passenger (f : Flight) (fromSeat toSeat : String) :
    Except FlightError Unit × Flight :=
  match parse_seat f.aircraft fromSeat with
  | .error e => (.error e, f)
  | .ok (fr, fl) =>
    if (getSeat f.seating fr fl).isNone then (.error .emptySeat, f)
    else
      match parse_seat f.aircraft toSeat with
      | .error e => (.error e, f)
      | .ok (tr, tl) =>
        if (getSeat f.seating tr tl).isSome then (.error .seatTaken, f)
        else (.ok (),
          { f with seating :=
              setSeat (setSeat f.seating tr tl (getSeat f.seating fr fl)) fr fl none })

/-- Count of `None` values in one row dict. -/
def countNoneRow (r : SeatRow) : Nat := (r.filter (fun p => p.2.isNone)).length

/-- `sum(1 for n in row.values() if n is None)` for one element of the
seating list; the skipped padding `None` contributes `0`. -/
def rowCount : Option SeatRow → Nat
  | none => 0
  | some r => countNoneRow r

/-- The double sum of `num_seats_available` over a seating list. -/
def numSeating (s : Seating) : Nat := (s.map rowCount).sum

/-- `Flight.num_seats_available`: over the non-`None` rows, count the
values that are `None`. -/
def num_seats_available (f : Flight) : Nat := numSeating f.seating

/-- `Flight._passenger_seats`: rows ascending, letters in plan order,
yielding `(passenger, "{row}{letter}")` for each occupied seat. -/
def passenger_seats (f : Flight) : List (String × String) :=
  (f.aircraft.seatingRows.map (fun row =>
    f.aircraft.planLetters.filterMap (fun letter =>
      match getSeat f.seating row letter with
      | some p => some (p, seatName row letter)
      | none => none))).flatten

/-- Python tuple comparison on `(passenger, seat)` pairs, as used by
`sorted`: lexicographic on code points, first component first. -/
def pairLE (x y : String × String) : Bool :=
  decide (x.1 < y.1 ∨ (x.1 = y.1 ∧ (x.2 < y.2 ∨ x.2 = y.2)))

/-- `Flight.make_boarding_cards`: the list of
`(passenger, seat, flight number, aircraft model)` tuples handed to the
card printer, in sorted order. -/
def make_boarding_cards (f : Flight) : List (String × String × String × String) :=
  ((passenger_seats f).mergeSort pairLE).map
    (fun pc => (pc.1, pc.2, f.number, f.aircraft_model))

/-! ### Well-formedness of a seating list, and reachable flight states -/

/-- One element of the seating tail: a present row dict whose key list is
exactly the letters of the plan (first occurrences, in order). -/
def rowOk (letters : List Char) : Option SeatRow → Bool
  | some r => decide (rowKeys r = dedupF letters)
  | none => false

/-- Structural well-formedness of a seating list for aircraft `a`: a `none`
padding cell followed by `planRows` well-keyed row dicts. -/
def WFSeatingB (a : Aircraft) (s : Seating) : Bool :=
  match s with
  | [] => false
  | orow :: rest =>
    decide (orow = none) && decide (rest.length = a.planRows) &&
      rest.all (rowOk a.planLetters)

/-- Well-formedness of a flight state. -/
def WFFlightB (f : Flight) : Bool := WFSeatingB f.aircraft f.seating

/-- Flight states reachable from construction by any sequence of `allocate`
and `relocate` calls (failing calls return the unchanged state). -/
inductive Reachable : Flight → Prop where
  | init (number : String) (a : Aircraft) (f : Flight) :
      mkFlight number a = .ok f → Reachable f
  | alloc (f : Flight) (seat passenger : String) (res : Except FlightError Unit)
      (f2 : Flight) : Reachable f → allocate_seat f seat passenger = (res, f2) →
      Reachable f2
  | reloc (f : Flight) (fromSeat toSeat : String) (res : Except FlightError Unit)
      (f2 : Flight) : Reachable f → relocate_passenger f fromSeat toSeat = (res, f2) →
      Reachable f2

/-! ### Definitions taken from the claims' wording, for comparison -/

/-- Modelled from the claim's words (C2): first two characters alphabetic
and uppercase, remainder non-empty, all digits, of value at most 9999. -/
def claimNumberOk (N : String) : Bool :=
  (N.toList.take 2).all (fun c => pyIsAlphaChar c && pyIsUpperChar c) &&
    !(N.toList.drop 2).isEmpty && (N.toList.drop 2).all pyIsDigitChar &&
    decVal (N.toList.drop 2) ≤ 9999

/-- Modelled from the claim's words (C3): the row prefix does not parse as
an integer, or the parsed integer is not among the aircraft's valid rows. -/
def rowBad (a : Aircraft) (rowText : List Char) : Bool :=
  match pyInt rowText with
  | none => true
  | some row => !decide (1 ≤ row ∧ row ≤ (a.planRows : Int))

/-- The (row, letter) entries of the seating map of aircraft `a`: the cross
product of the plan's rows and (deduplicated) letters. -/
def seatCells (a : Aircraft) : List (Nat × Char) :=
  (a.seatingRows.map (fun row => (dedupF a.planLetters).map (fun c => (row, c)))).flatten

/-- The key-set invariant of C8: the seating list has exactly one dict per
plan row (plus the padding cell), each dict's key set is exactly the plan's
letter set, and each key occurs once (at most one occupant per seat). -/
def KeySetInv (f : Flight) : Prop :=
  f.seating.length = f.aircraft.planRows + 1 ∧
  f.seating[0]? = some none ∧
  ∀ row, 1 ≤ row → row ≤ f.aircraft.planRows →
    ∃ r, f.seating[row]? = some (some r) ∧
      (∀ c, c ∈ rowKeys r ↔ c ∈ f.aircraft.planLetters) ∧ (rowKeys r).Nodup

/-! ### Lemmas: characters, decimal values, formatting, `pyInt` -/

theorem pyIsDigitChar_toNat {c : Char} (h : pyIsDigitChar c = true) :
    48 ≤ c.toNat ∧ c.toNat ≤ 57 := by
  simpa [pyIsDigitChar] using h

theorem digit_not_space {c : Char} (h : pyIsDigitChar c = true) :
    pyIsSpaceChar c = false := by
  have := pyIsDigitChar_toNat h
  simp only [pyIsSpaceChar, Bool.or_eq_false_iff, decide_eq_false_iff_not,
    Bool.and_eq_false_iff]
  omega

theorem digit_ne_underscore {c : Char} (h : pyIsDigitChar c = true) : c ≠ '_' := by
  intro he; subst he; simp [pyIsDigitChar] at h

theorem digit_ne_plus {c : Char} (h : pyIsDigitChar c = true) : c ≠ '+' := by
  intro he; subst he; simp [pyIsDigitChar] at h

theorem digit_ne_minus {c : Char} (h : pyIsDigitChar c = true) : c ≠ '-' := by
  intro he; subst he; simp [pyIsDigitChar] at h

theorem decVal_concat (l : List Char) (c : Char) :
    decVal (l ++ [c]) = decVal l * 10 + digitVal c := by
  simp [decVal, List.foldl_append]

theorem digitChar_spec {d : Nat} (h : d < 10) :
    pyIsDigitChar (Nat.digitChar d) = true ∧ digitVal (Nat.digitChar d) = d := by
  interval_cases d <;> exact ⟨by decide, by decide⟩

theorem natCharsAux_spec : ∀ (fuel n : Nat), n ≤ fuel →
    (∀ c ∈ natCharsAux fuel n, pyIsDigitChar c = true) ∧
    decVal (natCharsAux fuel n) = n ∧ (0 < n → natCharsAux fuel n ≠ []) := by
  intro fuel
  induction fuel with
  | zero =>
    intro n hn
    have h0 : n = 0 := Nat.le_zero.mp hn
    subst h0
    exact ⟨by simp [natCharsAux], by simp [natCharsAux, decVal], by simp⟩
  | succ fuel ih =>
    intro n hn
    by_cases h0 : n = 0
    · subst h0
      exact ⟨by simp [natCharsAux], by simp [natCharsAux, decVal], by simp⟩
    · have hdiv : n / 10 ≤ fuel := by
        have : n / 10 < n := Nat.div_lt_self (Nat.pos_of_ne_zero h0) (by omega)
        omega
      obtain ⟨ihd, ihv, _⟩ := ih (n / 10) hdiv
      have hmod : n % 10 < 10 := Nat.mod_lt _ (by omega)
      obtain ⟨hdc, hdv⟩ := digitChar_spec hmod
      refine ⟨?_, ?_, ?_⟩
      · intro c hc
        simp only [natCharsAux, if_neg h0, List.mem_append, List.mem_singleton] at hc
        rcases hc with hc | hc
        · exact ihd c hc
        · subst hc; exact hdc
      · simp only [natCharsAux, if_neg h0, decVal_concat, ihv, hdv]
        omega
      · intro _
        simp [natCharsAux, if_neg h0]

theorem natChars_spec (n : Nat) :
    (∀ c ∈ natChars n, pyIsDigitChar c = true) ∧ decVal (natChars n) = n ∧
      natChars n ≠ [] := by
  by_cases h0 : n = 0
  · subst h0
    exact ⟨by simp [natChars]; decide, by simp [natChars, decVal, digitVal], by simp [natChars]⟩
  · obtain ⟨hd, hv, hne⟩ := natCharsAux_spec n n (Nat.le_refl n)
    exact ⟨by simpa [natChars, if_neg h0] using hd,
      by simpa [natChars, if_neg h0] using hv,
      by simpa [natChars, if_neg h0] using hne (Nat.pos_of_ne_zero h0)⟩

theorem natChars_inj {m n : Nat} (h : natChars m = natChars n) : m = n := by
  have hm := (natChars_spec m).2.1
  have hn := (natChars_spec n).2.1
  rw [← hm, ← hn, h]

theorem udTail_of_digits : ∀ (l : List Char), (∀ c ∈ l, pyIsDigitChar c = true) →
    udTail l = true := by
  intro l
  induction l with
  | nil => intro _; rfl
  | cons c rest ih =>
    intro h
    have hc : pyIsDigitChar c = true := h c (by simp)
    rw [udTail.eq_def]
    simp only [digit_ne_underscore hc, if_false, hc, Bool.true_and]
    exact ih (fun d hd => h d (by simp [hd]))

theorem udOk_of_digits {l : List Char} (hne : l ≠ [])
    (h : ∀ c ∈ l, pyIsDigitChar c = true) : udOk l = true := by
  cases l with
  | nil => exact absurd rfl hne
  | cons c rest =>
    rw [udOk]
    simp only [h c (by simp), Bool.true_and]
    exact udTail_of_digits rest (fun d hd => h d (by simp [hd]))

theorem dropWhile_of_no_space {l : List Char}
    (h : ∀ c ∈ l, pyIsSpaceChar c = false) : l.dropWhile pyIsSpaceChar = l := by
  cases l with
  | nil => rfl
  | cons c rest => simp [List.dropWhile_cons, h c (by simp)]

theorem stripWs_of_no_space {l : List Char}
    (h : ∀ c ∈ l, pyIsSpaceChar c = false) : stripWs l = l := by
  unfold stripWs
  rw [dropWhile_of_no_space h,
    dropWhile_of_no_space (fun c hc => h c (List.mem_reverse.mp hc)), List.reverse_reverse]

theorem pyInt_digits {l : List Char} (hne : l ≠ [])
    (h : ∀ c ∈ l, pyIsDigitChar c = true) : pyInt l = some (Int.ofNat (decVal l)) := by
  have hstrip : stripWs l = l :=
    stripWs_of_no_space (fun c hc => digit_not_space (h c hc))
  unfold pyInt
  rw [hstrip]
  cases l with
  | nil => exact absurd rfl hne
  | cons c rest =>
    have hc : pyIsDigitChar c = true := h c (by simp)
    rw [pyIntCore, if_neg (digit_ne_plus hc), if_neg (digit_ne_minus hc),
      if_pos (udOk_of_digits (by simp) h)]
    have hfil : (c :: rest).filter (fun d => d ≠ '_') = c :: rest := by
      rw [List.filter_eq_self]
      intro d hd
      simpa using digit_ne_underscore (h d hd)
    rw [udVal, hfil]

theorem pyInt_natChars (n : Nat) : pyInt (natChars n) = some (Int.ofNat n) := by
  obtain ⟨hd, hv, hne⟩ := natChars_spec n
  rw [pyInt_digits hne hd, hv]

/-! ### Lemmas: deduplication -/

theorem mem_dedupAux : ∀ (l seen : List Char) (x : Char),
    x ∈ dedupAux l seen ↔ x ∈ l ∧ x ∉ seen := by
  intro l
  induction l with
  | nil => intro seen x; simp [dedupAux]
  | cons c rest ih =>
    intro seen x
    by_cases hc : c ∈ seen
    · rw [dedupAux, if_pos hc, ih]
      simp only [List.mem_cons]
      constructor
      · rintro ⟨hx, hns⟩; exact ⟨Or.inr hx, hns⟩
      · rintro ⟨hx | hx, hns⟩
        · subst hx; exact absurd hc hns
        · exact ⟨hx, hns⟩
    · rw [dedupAux, if_neg hc]
      simp only [List.mem_cons, ih]
      constructor
      · rintro (hx | ⟨hx, hns⟩)
        · subst hx; exact ⟨Or.inl rfl, hc⟩
        · exact ⟨Or.inr hx, fun hs => hns (by simp [hs])⟩
      · rintro ⟨hx | hx, hns⟩
        · exact Or.inl hx
        · by_cases hxc : x = c
          · exact Or.inl hxc
          · exact Or.inr ⟨hx, by simp [hxc, hns]⟩

theorem nodup_dedupAux : ∀ (l seen : List Char), (dedupAux l seen).Nodup := by
  intro l
  induction l with
  | nil => intro seen; simp [dedupAux]
  | cons c rest ih =>
    intro seen
    by_cases hc : c ∈ seen
    · rw [dedupAux, if_pos hc]; exact ih seen
    · rw [dedupAux, if_neg hc]
      refine List.Nodup.cons ?_ (ih (c :: seen))
      intro hmem
      exact ((mem_dedupAux rest (c :: seen) c).mp hmem).2 (by simp)

theorem mem_dedupF (l : List Char) (x : Char) : x ∈ dedupF l ↔ x ∈ l := by
  rw [dedupF, mem_dedupAux]; simp

theorem nodup_dedupF (l : List Char) : (dedupF l).Nodup := nodup_dedupAux l []

/-! ### Lemmas: row dictionaries -/

theorem rowLookup_cons (p : Char × Option String) (t : SeatRow) (c : Char) :
    rowLookup (p :: t) c = if p.1 = c then p.2 else rowLookup t c := by
  by_cases h : p.1 = c
  · rw [rowLookup, List.find?_cons_of_pos _ (by simpa using h), if_pos h]
  · rw [rowLookup, List.find?_cons_of_neg _ (by simpa using h), if_neg h, rowLookup]

theorem rowLookup_of_not_mem {r : SeatRow} {c : Char} (h : c ∉ rowKeys r) :
    rowLookup r c = none := by
  rw [rowLookup, List.find?_eq_none.mpr]
  intro p hp
  simp only [decide_eq_true_eq]
  intro he
  exact h (he ▸ List.mem_map_of_mem Prod.fst hp)

theorem rowLookup_values_none {r : SeatRow} (h : ∀ p ∈ r, p.2 = none) (c : Char) :
    rowLookup r c = none := by
  rw [rowLookup]
  cases hf : r.find? (fun p => p.1 = c) with
  | none => rfl
  | some p => exact h p (List.mem_of_find?_eq_some hf)

theorem rowKeys_mkRow (letters : List Char) : rowKeys (mkRow letters) = dedupF letters := by
  simp [rowKeys, mkRow, List.map_map, Function.comp_def]

theorem rowLookup_mkRow (letters : List Char) (c : Char) :
    rowLookup (mkRow letters) c = none := by
  refine rowLookup_values_none ?_ c
  intro p hp
  simp only [mkRow, List.mem_map] at hp
  obtain ⟨d, _, hd⟩ := hp
  rw [← hd]

theorem rowSet_of_mem {r : SeatRow} {c : Char} (h : c ∈ rowKeys r) (v : Option String) :
    rowSet r c v = r.map (fun p => if p.1 = c then (c, v) else p) := by
  rw [rowSet, if_pos]
  rw [List.any_eq_true]
  obtain ⟨p, hp, hfst⟩ := List.mem_map.mp h
  exact ⟨p, hp, by simpa using hfst⟩

theorem rowSet_of_not_mem {r : SeatRow} {c : Char} (h : c ∉ rowKeys r) (v : Option String) :
    rowSet r c v = r ++ [(c, v)] := by
  rw [rowSet, if_neg]
  rw [List.any_eq_true]
  rintro ⟨p, hp, hfst⟩
  exact h (by simpa using (show p.1 = c by simpa using hfst) ▸ List.mem_map_of_mem Prod.fst hp)

theorem rowLookup_map_update_self : ∀ (r : SeatRow) (c : Char) (v : Option String),
    c ∈ rowKeys r → rowLookup (r.map (fun p => if p.1 = c then (c, v) else p)) c = v := by
  intro r
  induction r with
  | nil => intro c v h; simp [rowKeys] at h
  | cons p t ih =>
    intro c v h
    by_cases hp : p.1 = c
    · simp only [List.map_cons, if_pos hp]
      rw [rowLookup_cons, if_pos rfl]
    · simp only [List.map_cons, if_neg hp]
      rw [rowLookup_cons, if_neg hp]
      refine ih c v ?_
      rcases List.mem_cons.mp h with he | ht
      · exact absurd he.symm hp
      · exact ht

theorem rowLookup_map_update_ne : ∀ (r : SeatRow) {c c' : Char}, c' ≠ c →
    ∀ (v : Option String),
    rowLookup (r.map (fun p => if p.1 = c then (c, v) else p)) c' = rowLookup r c' := by
  intro r
  induction r with
  | nil => intro c c' _ v; simp
  | cons p t ih =>
    intro c c' hne v
    by_cases hp : p.1 = c
    · simp only [List.map_cons, if_pos hp]
      rw [rowLookup_cons, rowLookup_cons, if_neg (fun he : c = c' => hne he.symm),
        if_neg (fun he : p.1 = c' => hne (by rw [← he, hp]))]
      exact ih hne v
    · simp only [List.map_cons, if_neg hp]
      rw [rowLookup_cons, rowLookup_cons]
      by_cases hpc : p.1 = c'
      · rw [if_pos hpc, if_pos hpc]
      · rw [if_neg hpc, if_neg hpc]
        exact ih hne v

theorem rowLookup_rowSet_self (r : SeatRow) (c : Char) (v : Option String) :
    rowLookup (rowSet r c v) c = v := by
  by_cases h : c ∈ rowKeys r
  · rw [rowSet_of_mem h]
    exact rowLookup_map_update_self r c v h
  · rw [rowSet_of_not_mem h, rowLookup, List.find?_append,
      List.find?_eq_none.mpr (fun p hp hpc => h (by
        simpa using (show p.1 = c by simpa using hpc) ▸ List.mem_map_of_mem Prod.fst hp))]
    simp [rowLookup]

theorem rowLookup_rowSet_ne (r : SeatRow) {c c' : Char} (hne : c' ≠ c)
    (v : Option String) : rowLookup (rowSet r c v) c' = rowLookup r c' := by
  by_cases h : c ∈ rowKeys r
  · rw [rowSet_of_mem h]
    exact rowLookup_map_update_ne r hne v
  · rw [rowSet_of_not_mem h, rowLookup, List.find?_append]
    cases hf : r.find? (fun p => p.1 = c') with
    | some p => simp [rowLookup, hf]
    | none =>
      simp only [rowLookup, hf, Option.none_or]
      rw [List.find?_cons_of_neg _ (by simpa using fun he : c = c' => hne he.symm)]
      simp

theorem rowKeys_rowSet {r : SeatRow} {c : Char} (h : c ∈ rowKeys r) (v : Option String) :
    rowKeys (rowSet r c v) = rowKeys r := by
  rw [rowSet_of_mem h, rowKeys, List.map_map]
  refine List.map_congr_left ?_
  intro p _
  by_cases hp : p.1 = c
  · simp [Function.comp_def, if_pos hp, hp]
  · simp [Function.comp_def, if_neg hp]

theorem countNoneRow_cons (p : Char × Option String) (t : SeatRow) :
    countNoneRow (p :: t) = (if p.2.isNone then 1 else 0) + countNoneRow t := by
  by_cases h : p.2.isNone
  · simp [countNoneRow, List.filter_cons, h, Nat.add_comm]
  · simp [countNoneRow, List.filter_cons, h]

theorem map_update_eq_self {r : SeatRow} {c : Char} (h : c ∉ rowKeys r)
    (v : Option String) : r.map (fun p => if p.1 = c then (c, v) else p) = r := by
  have : ∀ p ∈ r, (fun p => if p.1 = c then (c, v) else p) p = id p := by
    intro p hp
    have hne : p.1 ≠ c := fun he => h (he ▸ List.mem_map_of_mem Prod.fst hp)
    show (if p.1 = c then (c, v) else p) = p
    rw [if_neg hne]
  rw [List.map_congr_left this, List.map_id]

theorem countNoneRow_rowSet : ∀ (r : SeatRow) {c : Char}, (rowKeys r).Nodup →
    c ∈ rowKeys r → ∀ (v : Option String),
    countNoneRow (rowSet r c v) + (if (rowLookup r c).isNone then 1 else 0) =
      countNoneRow r + (if v.isNone then 1 else 0) := by
  intro r
  induction r with
  | nil => intro c _ hmem; simp [rowKeys] at hmem
  | cons p t ih =>
    intro c hnd hmem v
    rw [rowKeys, List.map_cons] at hnd
    have hnd' : (rowKeys t).Nodup := (List.nodup_cons.mp hnd).2
    by_cases hp : p.1 = c
    · have hct : c ∉ rowKeys t := hp ▸ (List.nodup_cons.mp hnd).1
      rw [rowSet_of_mem hmem, List.map_cons, if_pos hp, map_update_eq_self hct v,
        rowLookup_cons, if_pos hp, countNoneRow_cons, countNoneRow_cons,
        show ((c, v) : Char × Option String).2 = v from rfl]
      omega
    · have hmem' : c ∈ rowKeys t := by
        rcases List.mem_cons.mp hmem with he | ht
        · exact absurd he.symm hp
        · exact ht
      have hrec := ih hnd' hmem' v
      rw [rowSet_of_mem hmem'] at hrec
      rw [rowSet_of_mem hmem, List.map_cons, if_neg hp, rowLookup_cons, if_neg hp,
        countNoneRow_cons, countNoneRow_cons]
      omega

theorem rowExt : ∀ (r1 r2 : SeatRow), rowKeys r1 = rowKeys r2 → (rowKeys r1).Nodup →
    (∀ c, rowLookup r1 c = rowLookup r2 c) → r1 = r2 := by
  intro r1
  induction r1 with
  | nil =>
    intro r2 hk _ _
    cases r2 with
    | nil => rfl
    | cons q t2 => simp [rowKeys] at hk
  | cons p t1 ih =>
    intro r2 hk hnd hl
    cases r2 with
    | nil => simp [rowKeys] at hk
    | cons q t2 =>
      simp only [rowKeys, List.map_cons, List.cons.injEq] at hk
      obtain ⟨hfst, htk⟩ := hk
      have hval : p.2 = q.2 := by
        have := hl p.1
        rw [rowLookup_cons, rowLookup_cons, if_pos rfl, if_pos hfst.symm] at this
        exact this
      have hpq : p = q := Prod.ext hfst hval
      have hkeys : rowKeys t1 = rowKeys t2 := htk
      rw [rowKeys, List.map_cons] at hnd
      have hnp : p.1 ∉ rowKeys t1 := (List.nodup_cons.mp hnd).1
      have hnq : p.1 ∉ rowKeys t2 := hkeys ▸ hnp
      have htail : t1 = t2 := by
        refine ih t2 hkeys (List.nodup_cons.mp hnd).2 ?_
        intro c
        by_cases hc : c = p.1
        · subst hc
          rw [rowLookup_of_not_mem hnp, rowLookup_of_not_mem hnq]
        · have hlc := hl c
          rw [rowLookup_cons, rowLookup_cons, if_neg (fun he : p.1 = c => hc he.symm),
            if_neg (fun he : q.1 = c => hc ((hfst.trans he).symm))] at hlc
          exact hlc
      rw [hpq, htail]

/-! ### Lemmas: the seating list -/

theorem WF_destruct {a : Aircraft} {s : Seating} (h : WFSeatingB a s = true) :
    ∃ rest, s = none :: rest ∧ rest.length = a.planRows ∧
      ∀ orow ∈ rest, ∃ r, orow = some r ∧ rowKeys r = dedupF a.planLetters := by
  cases s with
  | nil => simp [WFSeatingB] at h
  | cons orow rest =>
    simp only [WFSeatingB, Bool.and_eq_true, decide_eq_true_eq, List.all_eq_true] at h
    obtain ⟨⟨h0, hlen⟩, hall⟩ := h
    subst h0
    refine ⟨rest, rfl, hlen, ?_⟩
    intro orow hmem
    have hok := hall orow hmem
    cases orow with
    | none => simp [rowOk] at hok
    | some r => exact ⟨r, rfl, by simpa [rowOk] using hok⟩

theorem WF_row {a : Aircraft} {s : Seating} (h : WFSeatingB a s = true) {row : Nat}
    (h1 : 1 ≤ row) (h2 : row ≤ a.planRows) :
    ∃ r, s[row]? = some (some r) ∧ rowKeys r = dedupF a.planLetters := by
  obtain ⟨rest, rfl, hlen, hall⟩ := WF_destruct h
  obtain ⟨k, rfl⟩ : ∃ k, row = k + 1 := ⟨row - 1, by omega⟩
  have hk : k < rest.length := by omega
  have hidx : rest[k]? = some rest[k] := List.getElem?_eq_getElem hk
  obtain ⟨r, hr, hkeys⟩ := hall rest[k] (List.getElem_mem hk)
  exact ⟨r, by rw [List.getElem?_cons_succ, hidx, hr], hkeys⟩

theorem WF_zero {a : Aircraft} {s : Seating} (h : WFSeatingB a s = true) :
    s[0]? = some none := by
  obtain ⟨rest, rfl, _, _⟩ := WF_destruct h
  simp

theorem WF_length {a : Aircraft} {s : Seating} (h : WFSeatingB a s = true) :
    s.length = a.planRows + 1 := by
  obtain ⟨rest, rfl, hlen, _⟩ := WF_destruct h
  simp [hlen]

theorem getSeat_of_row {s : Seating} {row : Nat} {r : SeatRow}
    (h : s[row]? = some (some r)) (c : Char) : getSeat s row c = rowLookup r c := by
  unfold getSeat
  rw [h]

theorem setSeat_of_row {s : Seating} {row : Nat} {r : SeatRow}
    (h : s[row]? = some (some r)) (c : Char) (v : Option String) :
    setSeat s row c v = s.set row (some (rowSet r c v)) := by
  unfold setSeat
  rw [h]

theorem row_lt_length {s : Seating} {row : Nat} {x : Option SeatRow}
    (h : s[row]? = some x) : row < s.length :=
  (List.getElem?_eq_some.mp h).1

theorem getSeat_setSeat_self {s : Seating} {row : Nat} {r : SeatRow}
    (h : s[row]? = some (some r)) (c : Char) (v : Option String) :
    getSeat (setSeat s row c v) row c = v := by
  rw [setSeat_of_row h]
  unfold getSeat
  rw [List.getElem?_set_self (row_lt_length h)]
  exact rowLookup_rowSet_self r c v

theorem getSeat_setSeat_ne {s : Seating} {row : Nat} {r : SeatRow}
    (h : s[row]? = some (some r)) {row' : Nat} {c c' : Char}
    (hne : ¬(row' = row ∧ c' = c)) (v : Option String) :
    getSeat (setSeat s row c v) row' c' = getSeat s row' c' := by
  rw [setSeat_of_row h]
  by_cases hr : row' = row
  · subst hr
    have hc : c' ≠ c := fun he => hne ⟨rfl, he⟩
    unfold getSeat
    rw [List.getElem?_set_self (row_lt_length h), h]
    exact rowLookup_rowSet_ne r hc v
  · unfold getSeat
    rw [List.getElem?_set_ne (fun he => hr he.symm)]

theorem WF_setSeat {a : Aircraft} {s : Seating} (h : WFSeatingB a s = true)
    {row : Nat} (h1 : 1 ≤ row) (h2 : row ≤ a.planRows) {c : Char}
    (hc : c ∈ a.planLetters) (v : Option String) :
    WFSeatingB a (setSeat s row c v) = true := by
  obtain ⟨r, hr, hkeys⟩ := WF_row h h1 h2
  obtain ⟨rest, rfl, hlen, hall⟩ := WF_destruct h
  obtain ⟨k, rfl⟩ : ∃ k, row = k + 1 := ⟨row - 1, by omega⟩
  rw [setSeat_of_row hr, List.set_cons_succ]
  have hcr : c ∈ rowKeys r := by
    rw [hkeys, mem_dedupF]
    exact hc
  simp only [WFSeatingB, Bool.and_eq_true, decide_eq_true_eq, List.all_eq_true]
  refine ⟨⟨trivial, by simp [hlen]⟩, ?_⟩
  intro orow hmem
  rcases List.mem_or_eq_of_mem_set hmem with hold | hnew
  · obtain ⟨r2, hr2, hkeys2⟩ := hall orow hold
    subst hr2
    simpa [rowOk] using hkeys2
  · subst hnew
    simpa [rowOk] using (rowKeys_rowSet hcr v).trans hkeys

theorem sum_set_nat : ∀ (l : List Nat) (i a b : Nat), l[i]? = some a →
    (l.set i b).sum + a = l.sum + b := by
  intro l
  induction l with
  | nil => intro i a b h; simp at h
  | cons x t ih =>
    intro i a b h
    cases i with
    | zero =>
      simp only [List.getElem?_cons_zero, Option.some.injEq] at h
      subst h
      simp [List.set_cons_zero]
      omega
    | succ i =>
      rw [List.getElem?_cons_succ] at h
      rw [List.set_cons_succ]
      simp only [List.sum_cons]
      have := ih i a b h
      omega

theorem numSeating_set {s : Seating} {row : Nat} {r : SeatRow}
    (h : s[row]? = some (some r)) (r2 : SeatRow) :
    numSeating (s.set row (some r2)) + countNoneRow r = numSeating s + countNoneRow r2 := by
  unfold numSeating
  rw [List.map_set]
  refine sum_set_nat _ row (countNoneRow r) (countNoneRow r2) ?_
  rw [List.getElem?_map, h]
  rfl

theorem num_setSeat {s : Seating} {row : Nat} {r : SeatRow}
    (h : s[row]? = some (some r)) (hnd : (rowKeys r).Nodup) {c : Char}
    (hmem : c ∈ rowKeys r) (v : Option String) :
    numSeating (setSeat s row c v) + (if (rowLookup r c).isNone then 1 else 0) =
      numSeating s + (if v.isNone then 1 else 0) := by
  rw [setSeat_of_row h]
  have ha := numSeating_set h (rowSet r c v)
  have hb := countNoneRow_rowSet r hnd hmem v
  omega

theorem WF_mkSeating (a : Aircraft) : WFSeatingB a (mkSeating a) = true := by
  simp only [mkSeating, WFSeatingB, Bool.and_eq_true, decide_eq_true_eq, List.all_eq_true]
  refine ⟨⟨trivial, by simp [Aircraft.seatingRows]⟩, ?_⟩
  intro orow hmem
  simp only [List.mem_map] at hmem
  obtain ⟨_, _, hor⟩ := hmem
  subst hor
  simp [rowOk, rowKeys_mkRow]

theorem getSeat_mkSeating (a : Aircraft) (row : Nat) (c : Char) :
    getSeat (mkSeating a) row c = none := by
  cases row with
  | zero =>
    unfold getSeat mkSeating
    rw [List.getElem?_cons_zero]
  | succ k =>
    unfold getSeat mkSeating
    rw [List.getElem?_cons_succ, List.getElem?_map]
    cases h : (a.seatingRows)[k]? with
    | none => simp [h]
    | some _ => simp [h, rowLookup_mkRow]

theorem seatingExt {a : Aircraft} {s1 s2 : Seating} (h1 : WFSeatingB a s1 = true)
    (h2 : WFSeatingB a s2 = true)
    (hget : ∀ row c, getSeat s1 row c = getSeat s2 row c) : s1 = s2 := by
  obtain ⟨rest1, rfl, hlen1, hall1⟩ := WF_destruct h1
  obtain ⟨rest2, rfl, hlen2, hall2⟩ := WF_destruct h2
  suffices hr : rest1 = rest2 by rw [hr]
  apply List.ext_getElem?
  intro i
  by_cases hi : i < rest1.length
  · have hi2 : i < rest2.length := by omega
    have hidx1 : rest1[i]? = some rest1[i] := List.getElem?_eq_getElem hi
    have hidx2 : rest2[i]? = some rest2[i] := List.getElem?_eq_getElem hi2
    obtain ⟨r1, hr1, hkeys1⟩ := hall1 rest1[i] (List.getElem_mem hi)
    obtain ⟨r2, hr2, hkeys2⟩ := hall2 rest2[i] (List.getElem_mem hi2)
    have hg1 : (none :: rest1)[i + 1]? = some (some r1) := by
      rw [List.getElem?_cons_succ, hidx1, hr1]
    have hg2 : (none :: rest2)[i + 1]? = some (some r2) := by
      rw [List.getElem?_cons_succ, hidx2, hr2]
    have hrows : r1 = r2 := by
      refine rowExt r1 r2 (hkeys1.trans hkeys2.symm) (hkeys1 ▸ nodup_dedupF _) ?_
      intro c
      have := hget (i + 1) c
      rwa [getSeat_of_row hg1, getSeat_of_row hg2] at this
    rw [hidx1, hidx2, hr1, hr2, hrows]
  · rw [List.getElem?_eq_none (by omega), List.getElem?_eq_none (by omega)]

/-! ### Lemmas: seat parsing -/

theorem toList_mk (l : List Char) : (String.mk l).toList = l := rfl

theorem toList_ne_nil {s : String} (h : s ≠ "") : s.toList ≠ [] := by
  cases s with
  | mk data =>
    intro hd
    rw [toList_mk] at hd
    subst hd
    exact h rfl

theorem parse_seat_seatName (a : Aircraft) {row : Nat} (h1 : 1 ≤ row)
    (h2 : row ≤ a.planRows) {letter : Char} (hc : letter ∈ a.planLetters) :
    parse_seat a (seatName row letter) = .ok (row, letter) := by
  simp [parse_seat, seatName, toList_mk, List.getLast?_concat, List.dropLast_concat,
    pyInt_natChars, hc]
  omega

theorem parse_seat_ok_inv {a : Aircraft} {s : String} {row : Nat} {c : Char}
    (h : parse_seat a s = .ok (row, c)) :
    1 ≤ row ∧ row ≤ a.planRows ∧ c ∈ a.planLetters := by
  unfold parse_seat at h
  split at h
  · simp at h
  · rename_i letter hlast
    split at h
    · rename_i hmem
      split at h
      · simp at h
      · rename_i r hp
        split at h
        · rename_i hcond
          simp only [Except.ok.injEq, Prod.mk.injEq] at h
          obtain ⟨hr, hc2⟩ := h
          subst hr
          subst hc2
          exact ⟨by omega, by omega, hmem⟩
        · simp at h
    · simp at h

theorem parse_seat_empty (a : Aircraft) : parse_seat a "" = .error .indexError := rfl

theorem parse_seat_ne_indexError {a : Aircraft} {s : String} (hne : s ≠ "")
    {e : FlightError} (h : parse_seat a s = .error e) : e ≠ .indexError := by
  unfold parse_seat at h
  split at h
  · rename_i hlast
    exact absurd (List.getLast?_eq_none_iff.mp hlast) (toList_ne_nil hne)
  · split at h
    · split at h
      · simp only [Except.error.injEq] at h
        subst h
        simp
      · split at h
        · simp at h
        · simp only [Except.error.injEq] at h
          subst h
          simp
    · simp only [Except.error.injEq] at h
      subst h
      simp

/-! ### Lemmas: allocation and relocation, computation rules and inversion -/

theorem allocate_of_parse_error {f : Flight} {s : String} {e : FlightError}
    (h : parse_seat f.aircraft s = .error e) (p : String) :
    allocate_seat f s p = (.error e, f) := by
  simp [allocate_seat, h]

theorem allocate_of_taken {f : Flight} {s : String} {row : Nat} {c : Char}
    (h : parse_seat f.aircraft s = .ok (row, c))
    (hocc : (getSeat f.seating row c).isSome = true) (p : String) :
    allocate_seat f s p = (.error .seatTaken, f) := by
  simp [allocate_seat, h, hocc]

theorem allocate_of_free {f : Flight} {s : String} {row : Nat} {c : Char}
    (h : parse_seat f.aircraft s = .ok (row, c))
    (hfree : getSeat f.seating row c = none) (p : String) :
    allocate_seat f s p =
      (.ok (), { f with seating := setSeat f.seating row c (some p) }) := by
  simp [allocate_seat, h, hfree]

theorem allocate_ok_inv {f : Flight} {s p : String} {u : Unit} {f2 : Flight}
    (h : allocate_seat f s p = (.ok u, f2)) :
    ∃ row c, parse_seat f.aircraft s = .ok (row, c) ∧
      getSeat f.seating row c = none ∧
      f2 = { f with seating := setSeat f.seating row c (some p) } := by
  unfold allocate_seat at h
  split at h
  · simp at h
  · rename_i row c hp
    split at h
    · simp at h
    · rename_i hocc
      simp only [Prod.mk.injEq] at h
      exact ⟨row, c, hp, Option.not_isSome_iff_eq_none.mp (by simpa using hocc), h.2.symm⟩

theorem allocate_snd (f : Flight) (s p : String) :
    (allocate_seat f s p).2 = f ∨
      ∃ row c, parse_seat f.aircraft s = .ok (row, c) ∧
        (allocate_seat f s p).2 = { f with seating := setSeat f.seating row c (some p) } := by
  unfold allocate_seat
  split
  · exact Or.inl rfl
  · rename_i row c hp
    split
    · exact Or.inl rfl
    · exact Or.inr ⟨row, c, hp, rfl⟩

theorem relocate_of_parse_error_from {f : Flight} {fromSeat : String} {e : FlightError}
    (h : parse_seat f.aircraft fromSeat = .error e) (toSeat : String) :
    relocate_passenger f fromSeat toSeat = (.error e, f) := by
  simp [relocate_passenger, h]

theorem relocate_of_empty {f : Flight} {fromSeat : String} {fr : Nat} {fl : Char}
    (h : parse_seat f.aircraft fromSeat = .ok (fr, fl))
    (hempty : getSeat f.seating fr fl = none) (toSeat : String) :
    relocate_passenger f fromSeat toSeat = (.error .emptySeat, f) := by
  simp [relocate_passenger, h, hempty]

theorem relocate_of_parse_error_to {f : Flight} {fromSeat toSeat : String} {fr : Nat}
    {fl : Char} {v : String} {e : FlightError}
    (h : parse_seat f.aircraft fromSeat = .ok (fr, fl))
    (hocc : getSeat f.seating fr fl = some v)
    (ht : parse_seat f.aircraft toSeat = .error e) :
    relocate_passenger f fromSeat toSeat = (.error e, f) := by
  simp [relocate_passenger, h, hocc, ht]

theorem relocate_of_taken {f : Flight} {fromSeat toSeat : String} {fr tr : Nat}
    {fl tl : Char} {v : String}
    (h : parse_seat f.aircraft fromSeat = .ok (fr, fl))
    (hocc : getSeat f.seating fr fl = some v)
    (ht : parse_seat f.aircraft toSeat = .ok (tr, tl))
    (htaken : (getSeat f.seating tr tl).isSome = true) :
    relocate_passenger f fromSeat toSeat = (.error .seatTaken, f) := by
  simp [relocate_passenger, h, hocc, ht, htaken]

theorem relocate_of_free {f : Flight} {fromSeat toSeat : String} {fr tr : Nat}
    {fl tl : Char} {v : String}
    (h : parse_seat f.aircraft fromSeat = .ok (fr, fl))
    (hocc : getSeat f.seating fr fl = some v)
    (ht : parse_seat f.aircraft toSeat = .ok (tr, tl))
    (hfree : getSeat f.seating tr tl = none) :
    relocate_passenger f fromSeat toSeat =
      (.ok (), { f with seating := (setSeat (setSeat f.seating tr tl (some v)) fr fl none) }) := by
  simp [relocate_passenger, h, hocc, ht, hfree]

theorem relocate_ok_inv {f : Flight} {fromSeat toSeat : String} {u : Unit} {f2 : Flight}
    (h : relocate_passenger f fromSeat toSeat = (.ok u, f2)) :
    ∃ fr fl tr tl v, parse_seat f.aircraft fromSeat = .ok (fr, fl) ∧
      getSeat f.seating fr fl = some v ∧
      parse_seat f.aircraft toSeat = .ok (tr, tl) ∧
      getSeat f.seating tr tl = none ∧
      f2 = { f with seating := (setSeat (setSeat f.seating tr tl (some v)) fr fl none) } := by
  unfold relocate_passenger at h
  split at h
  · simp at h
  · rename_i fr fl hp
    split at h
    · simp at h
    · rename_i hocc
      split at h
      · simp at h
      · rename_i tr tl ht
        split at h
        · simp at h
        · rename_i htaken
          simp only [Prod.mk.injEq] at h
          cases hv : getSeat f.seating fr fl with
          | none => rw [hv] at hocc; simp at hocc
          | some v =>
            refine ⟨fr, fl, tr, tl, v, hp, hv, ht,
              Option.not_isSome_iff_eq_none.mp htaken, ?_⟩
            rw [← h.2, hv]

theorem relocate_snd (f : Flight) (fromSeat toSeat : String) :
    (relocate_passenger f fromSeat toSeat).2 = f ∨
      ∃ fr fl tr tl, parse_seat f.aircraft fromSeat = .ok (fr, fl) ∧
        parse_seat f.aircraft toSeat = .ok (tr, tl) ∧
        (relocate_passenger f fromSeat toSeat).2 = { f with seating :=
          (setSeat (setSeat f.seating tr tl (getSeat f.seating fr fl)) fr fl none) } := by
  unfold relocate_passenger
  split
  · exact Or.inl rfl
  · rename_i fr fl hp
    split
    · exact Or.inl rfl
    · split
      · exact Or.inl rfl
      · rename_i tr tl ht
        split
        · exact Or.inl rfl
        · exact Or.inr ⟨fr, fl, tr, tl, hp, ht, rfl⟩

/-! ### Lemmas: flight construction and reachability -/

theorem mkFlight_ok_inv {N : String} {a : Aircraft} {f : Flight}
    (h : mkFlight N a = .ok f) : f = ⟨N, a, mkSeating a⟩ := by
  unfold mkFlight at h
  split at h
  · simp at h
  · split at h
    · simp at h
    · split at h
      · simp at h
      · simp only [Except.ok.injEq] at h
        exact h.symm

theorem Reachable_WF {f : Flight} (h : Reachable f) : WFFlightB f = true := by
  induction h with
  | init N a f hmk =>
    rw [mkFlight_ok_inv hmk]
    exact WF_mkSeating a
  | alloc f s p res f2 _ heq ih =>
    have hsnd : (allocate_seat f s p).2 = f2 := by rw [heq]
    rcases allocate_snd f s p with h2 | ⟨row, c, hp, h2⟩
    · rw [hsnd] at h2
      rw [h2]
      exact ih
    · rw [hsnd] at h2
      obtain ⟨hb1, hb2, hmem⟩ := parse_seat_ok_inv hp
      rw [h2]
      exact WF_setSeat ih hb1 hb2 hmem _
  | reloc f fromSeat toSeat res f2 _ heq ih =>
    have hsnd : (relocate_passenger f fromSeat toSeat).2 = f2 := by rw [heq]
    rcases relocate_snd f fromSeat toSeat with h2 | ⟨fr, fl, tr, tl, hp, ht, h2⟩
    · rw [hsnd] at h2
      rw [h2]
      exact ih
    · rw [hsnd] at h2
      obtain ⟨hfb1, hfb2, hfmem⟩ := parse_seat_ok_inv hp
      obtain ⟨htb1, htb2, htmem⟩ := parse_seat_ok_inv ht
      rw [h2]
      exact WF_setSeat (WF_setSeat ih htb1 htb2 htmem _) hfb1 hfb2 hfmem _

/-! ### Lemmas: flight-number validation -/

theorem mkFlight_ok_iff (N : String) (a : Aircraft) :
    (∃ f, mkFlight N a = .ok f) ↔
      (pyIsAlpha (N.toList.take 2) = true ∧ pyIsUpper (N.toList.take 2) = true ∧
        pyIsDigit (N.toList.drop 2) = true ∧ decVal (N.toList.drop 2) ≤ 9999) := by
  constructor
  · rintro ⟨f, hf⟩
    unfold mkFlight at hf
    split at hf
    · simp at hf
    · rename_i h1
      split at hf
      · simp at hf
      · rename_i h2
        split at hf
        · simp at hf
        · rename_i h3
          simp only [Bool.not_eq_true', Bool.not_eq_false] at h1 h2 h3
          simp only [Bool.and_eq_true, decide_eq_true_eq] at h3
          exact ⟨h1, h2, h3.1, h3.2⟩
  · rintro ⟨h1, h2, h3, h4⟩
    refine ⟨⟨N, a, mkSeating a⟩, ?_⟩
    have h1' : pyIsAlpha (List.take 2 N.data) = true := h1
    have h2' : pyIsUpper (List.take 2 N.data) = true := h2
    have h3' : pyIsDigit (List.drop 2 N.data) = true := h3
    have h4' : decVal (List.drop 2 N.data) ≤ 9999 := h4
    unfold mkFlight
    rw [if_neg (by simp [h1']), if_neg (by simp [h2']), if_neg (by simp [h3', h4'])]

theorem mkFlight_error_format {N : String} {a : Aircraft} {e : FlightError}
    (h : mkFlight N a = .error e) : e.isInvalidFormat = true := by
  unfold mkFlight at h
  split at h
  · simp only [Except.error.injEq] at h
    subst h
    rfl
  · split at h
    · simp only [Except.error.injEq] at h
      subst h
      rfl
    · split at h
      · simp only [Except.error.injEq] at h
        subst h
        rfl
      · simp at h

theorem mkFlight_airline {N : String} {a : Aircraft} {f : Flight}
    (h : mkFlight N a = .ok f) : f.airline = String.mk (N.toList.take 2) := by
  rw [mkFlight_ok_inv h]
  rfl

theorem pyConds_iff_claim (N : String) :
    (pyIsAlpha (N.toList.take 2) = true ∧ pyIsUpper (N.toList.take 2) = true ∧
      pyIsDigit (N.toList.drop 2) = true ∧ decVal (N.toList.drop 2) ≤ 9999) ↔
    claimNumberOk N = true := by
  simp only [pyIsAlpha, pyIsUpper, pyIsDigit, claimNumberOk, Bool.and_eq_true,
    Bool.not_eq_true', List.isEmpty_eq_false, List.all_eq_true, decide_eq_true_eq]
  constructor
  · rintro ⟨⟨ht2, hta⟩, ⟨_, htu⟩, ⟨hd2, hdd⟩, hval⟩
    refine ⟨⟨⟨fun c hc => ?_, hd2⟩, hdd⟩, hval⟩
    refine ⟨hta c hc, htu c ?_⟩
    rw [List.mem_filter]
    exact ⟨hc, hta c hc⟩
  · rintro ⟨⟨⟨htb, hd2⟩, hdd⟩, hval⟩
    have ht2 : N.toList.take 2 ≠ [] := by
      have hnil : N.toList ≠ [] := by
        intro hn
        rw [hn] at hd2
        simp at hd2
      rw [Ne, List.take_eq_nil_iff]
      push_neg
      exact ⟨by omega, hnil⟩
    have hfil : (N.toList.take 2).filter pyIsAlphaChar = N.toList.take 2 := by
      rw [List.filter_eq_self]
      exact fun c hc => (htb c hc).1
    refine ⟨⟨ht2, fun c hc => (htb c hc).1⟩, ⟨by rw [hfil]; exact ht2, ?_⟩, ⟨hd2, hdd⟩, hval⟩
    intro c hc
    rw [hfil] at hc
    exact (htb c hc).2

/-- C2: constructing a Flight with number N fails with InvalidFormat unless
the first two characters are alphabetic and uppercase and the remainder is a
non-empty digit string of value at most 9999 (no bound on digit count, so
"AB00001" passes); "ab123" and "AB12345" fail, "AB1234" succeeds; and the
airline accessor of a constructed Flight returns the first two characters
verbatim. -/
theorem C2_flight_number_validation :
    (∀ (N : String) (a : Aircraft),
      ((∃ f, mkFlight N a = .ok f) ↔ claimNumberOk N = true) ∧
      (∀ e, mkFlight N a = .error e → e.isInvalidFormat = true) ∧
      (claimNumberOk N = false → ∃ e, mkFlight N a = .error e ∧ e.isInvalidFormat = true) ∧
      (∀ f, mkFlight N a = .ok f → f.airline = String.mk (N.toList.take 2))) ∧
    (∀ a : Aircraft,
      (∃ f, mkFlight "AB00001" a = .ok f) ∧
      (∃ e, mkFlight "ab123" a = .error e ∧ e.isInvalidFormat = true) ∧
      (∃ e, mkFlight "AB12345" a = .error e ∧ e.isInvalidFormat = true) ∧
      (∃ f, mkFlight "AB1234" a = .ok f)) := by
  have hmain : ∀ (N : String) (a : Aircraft),
      ((∃ f, mkFlight N a = .ok f) ↔ claimNumberOk N = true) ∧
      (∀ e, mkFlight N a = .error e → e.isInvalidFormat = true) ∧
      (claimNumberOk N = false → ∃ e, mkFlight N a = .error e ∧ e.isInvalidFormat = true) ∧
      (∀ f, mkFlight N a = .ok f → f.airline = String.mk (N.toList.take 2)) := by
    intro N a
    have hiff : (∃ f, mkFlight N a = .ok f) ↔ claimNumberOk N = true :=
      (mkFlight_ok_iff N a).trans (pyConds_iff_claim N)
    refine ⟨hiff, fun e he => mkFlight_error_format he, ?_, fun f hf => mkFlight_airline hf⟩
    intro hfalse
    cases hmk : mkFlight N a with
    | ok f =>
      have : claimNumberOk N = true := hiff.mp ⟨f, hmk⟩
      rw [this] at hfalse
      cases hfalse
    | error e => exact ⟨e, rfl, mkFlight_error_format hmk⟩
  refine ⟨hmain, ?_⟩
  intro a
  have e1 : claimNumberOk "AB00001" = true := by decide
  have e4 : claimNumberOk "AB1234" = true := by decide
  refine ⟨((hmain "AB00001" a).1).mpr e1, ?_, ?_, ((hmain "AB1234" a).1).mpr e4⟩
  · refine ⟨.invalidAirlineCode, ?_, rfl⟩
    have h1 : pyIsAlpha ['a', 'b'] = true := by decide
    have h2 : pyIsUpper ['a', 'b'] = false := by decide
    simp [mkFlight, h1, h2]
  · refine ⟨.invalidRouteNumber, ?_, rfl⟩
    have h1 : pyIsAlpha ['A', 'B'] = true := by decide
    have h2 : pyIsUpper ['A', 'B'] = true := by decide
    have h4 : decVal ['1', '2', '3', '4', '5'] = 12345 := by decide
    simp [mkFlight, h1, h2, h4]

/-! ### Claims C1, C3, C4, C9, C10 -/

/-- C1: relocate parses both seat designators (each subject to the seat
parsing errors), fails with emptySeat when the source seat is unoccupied,
fails with seatTaken when the destination is occupied, and on success copies
the occupant to the destination and then clears the source; on every
failure the returned state is unchanged. -/
theorem C1_relocate_contract :
    ∀ (f : Flight) (fromSeat toSeat : String), WFFlightB f = true →
      (∀ e, parse_seat f.aircraft fromSeat = .error e →
        relocate_passenger f fromSeat toSeat = (.error e, f)) ∧
      (∀ fr fl, parse_seat f.aircraft fromSeat = .ok (fr, fl) →
        getSeat f.seating fr fl = none →
        relocate_passenger f fromSeat toSeat = (.error .emptySeat, f)) ∧
      (∀ fr fl v e, parse_seat f.aircraft fromSeat = .ok (fr, fl) →
        getSeat f.seating fr fl = some v →
        parse_seat f.aircraft toSeat = .error e →
        relocate_passenger f fromSeat toSeat = (.error e, f)) ∧
      (∀ fr fl v tr tl q, parse_seat f.aircraft fromSeat = .ok (fr, fl) →
        getSeat f.seating fr fl = some v →
        parse_seat f.aircraft toSeat = .ok (tr, tl) →
        getSeat f.seating tr tl = some q →
        relocate_passenger f fromSeat toSeat = (.error .seatTaken, f)) ∧
      (∀ fr fl v tr tl, parse_seat f.aircraft fromSeat = .ok (fr, fl) →
        getSeat f.seating fr fl = some v →
        parse_seat f.aircraft toSeat = .ok (tr, tl) →
        getSeat f.seating tr tl = none →
        ∃ f2, relocate_passenger f fromSeat toSeat = (.ok (), f2) ∧
          f2.number = f.number ∧ f2.aircraft = f.aircraft ∧
          getSeat f2.seating tr tl = some v ∧ getSeat f2.seating fr fl = none ∧
          ∀ row c, ¬(row = fr ∧ c = fl) → ¬(row = tr ∧ c = tl) →
            getSeat f2.seating row c = getSeat f.seating row c) := by
  intro f fromSeat toSeat hWF
  refine ⟨fun e he => relocate_of_parse_error_from he toSeat,
    fun fr fl hp hempty => relocate_of_empty hp hempty toSeat,
    fun fr fl v e hp hocc ht => relocate_of_parse_error_to hp hocc ht,
    fun fr fl v tr tl q hp hocc ht htaken =>
      relocate_of_taken hp hocc ht (by simp [htaken]), ?_⟩
  intro fr fl v tr tl hp hocc ht hfree
  obtain ⟨hfb1, hfb2, hfmem⟩ := parse_seat_ok_inv hp
  obtain ⟨htb1, htb2, htmem⟩ := parse_seat_ok_inv ht
  have hWFs : WFSeatingB f.aircraft f.seating = true := hWF
  have hcells : ¬(fr = tr ∧ fl = tl) := by
    rintro ⟨h1, h2⟩
    rw [h1, h2, hfree] at hocc
    cases hocc
  obtain ⟨rT, hrT, _⟩ := WF_row hWFs htb1 htb2
  have hWF1 : WFSeatingB f.aircraft (setSeat f.seating tr tl (some v)) = true :=
    WF_setSeat hWFs htb1 htb2 htmem _
  obtain ⟨rF, hrF, _⟩ := WF_row hWF1 hfb1 hfb2
  refine ⟨_, relocate_of_free hp hocc ht hfree, rfl, rfl, ?_, ?_, ?_⟩
  · rw [getSeat_setSeat_ne hrF (by rintro ⟨h1, h2⟩; exact hcells ⟨h1.symm, h2.symm⟩) none,
      getSeat_setSeat_self hrT tl (some v)]
  · rw [getSeat_setSeat_self hrF fl none]
  · intro row c hnf hnt
    rw [getSeat_setSeat_ne hrF hnf none, getSeat_setSeat_ne hrT hnt (some v)]

/-- C3: seat parsing takes the last character as the letter and the prefix
as the row text; it fails with invalidSeatLetter when the letter is not in
the plan, fails with invalidSeatRow when (the letter being valid) the prefix
does not parse as an integer or the row is out of plan; every in-plan seat
designator parses successfully, and parsing is deterministic. -/
theorem C3_seat_parsing :
    (∀ (a : Aircraft) (s : String) (letter : Char), s.toList.getLast? = some letter →
      (letter ∉ a.planLetters → parse_seat a s = .error .invalidSeatLetter) ∧
      (letter ∈ a.planLetters → rowBad a s.toList.dropLast = true →
        parse_seat a s = .error .invalidSeatRow)) ∧
    (∀ (a : Aircraft) (row : Nat) (letter : Char), 1 ≤ row → row ≤ a.planRows →
      letter ∈ a.planLetters → parse_seat a (seatName row letter) = .ok (row, letter)) ∧
    (∀ (a : Aircraft) (s : String) (p1 p2 : Nat × Char),
      parse_seat a s = .ok p1 → parse_seat a s = .ok p2 → p1 = p2) := by
  refine ⟨?_, fun a row letter h1 h2 hc => parse_seat_seatName a h1 h2 hc,
    fun a s p1 p2 h1 h2 => by rw [h1] at h2; exact Except.ok.inj h2⟩
  intro a s letter hlast
  have hlast' : s.data.getLast? = some letter := hlast
  constructor
  · intro hnot
    simp [parse_seat, hlast', hnot]
  · intro hmem hbad
    unfold rowBad at hbad
    cases hp : pyInt s.toList.dropLast with
    | none =>
      have hp' : pyInt s.data.dropLast = none := hp
      simp [parse_seat, hlast', hmem, hp']
    | some row =>
      have hp' : pyInt s.data.dropLast = some row := hp
      rw [hp] at hbad
      have hcond : ¬(1 ≤ row ∧ row ≤ (a.planRows : Int)) := by
        simp only [Bool.not_eq_true', decide_eq_false_iff_not] at hbad
        exact hbad
      simp [parse_seat, hlast', hmem, hp', hcond]

/-- C4: allocate on a parsed in-plan seat fails with seatTaken (state
unchanged) when the seat is occupied, and otherwise records the passenger
at that seat, changing no other seat; immediately re-allocating the same
seat then fails with seatTaken and preserves the occupant. -/
theorem C4_allocate_contract :
    ∀ (f : Flight) (s p : String) (row : Nat) (letter : Char), WFFlightB f = true →
      parse_seat f.aircraft s = .ok (row, letter) →
      ((getSeat f.seating row letter).isSome = true →
        allocate_seat f s p = (.error .seatTaken, f)) ∧
      (getSeat f.seating row letter = none →
        ∃ f2, allocate_seat f s p = (.ok (), f2) ∧
          f2.number = f.number ∧ f2.aircraft = f.aircraft ∧
          getSeat f2.seating row letter = some p ∧
          (∀ r c, ¬(r = row ∧ c = letter) →
            getSeat f2.seating r c = getSeat f.seating r c) ∧
          ∀ q, allocate_seat f2 s q = (.error .seatTaken, f2) ∧
            getSeat f2.seating row letter = some p) := by
  intro f s p row letter hWF hp
  refine ⟨fun hocc => allocate_of_taken hp hocc p, ?_⟩
  intro hfree
  obtain ⟨hb1, hb2, hmem⟩ := parse_seat_ok_inv hp
  have hWFs : WFSeatingB f.aircraft f.seating = true := hWF
  obtain ⟨r, hr, _⟩ := WF_row hWFs hb1 hb2
  have hself : getSeat (setSeat f.seating row letter (some p)) row letter = some p :=
    getSeat_setSeat_self hr letter (some p)
  refine ⟨_, allocate_of_free hp hfree p, rfl, rfl, hself, ?_, ?_⟩
  · intro r2 c2 hne
    exact getSeat_setSeat_ne hr hne (some p)
  · intro q
    refine ⟨?_, hself⟩
    have hp2 : parse_seat ({ f with seating := setSeat f.seating row letter (some p) } :
        Flight).aircraft s = .ok (row, letter) := hp
    have hocc2 : (getSeat ({ f with seating := setSeat f.seating row letter (some p) } :
        Flight).seating row letter).isSome = true := by
      show (getSeat (setSeat f.seating row letter (some p)) row letter).isSome = true
      rw [hself]
      rfl
    exact allocate_of_taken hp2 hocc2 q

/-- C9: relocating an occupied seat to itself fails with seatTaken (the
destination-occupied check fires on the seat's own occupant) and leaves the
seating unchanged. -/
theorem C9_self_relocation :
    ∀ (f : Flight) (S : String) (row : Nat) (c : Char) (p : String),
      parse_seat f.aircraft S = .ok (row, c) → getSeat f.seating row c = some p →
      relocate_passenger f S S = (.error .seatTaken, f) := by
  intro f S row c p hp hocc
  exact relocate_of_taken hp hocc hp (by simp [hocc])

/-- C10: the empty seat string hits the IndexError of `seat[-1]` in
allocate and relocate, not one of the documented seat errors; parsing a
non-empty seat string never raises the IndexError. -/
theorem C10_empty_seat_string :
    (∀ a : Aircraft, parse_seat a "" = .error .indexError) ∧
    (∀ (f : Flight) (p : String), allocate_seat f "" p = (.error .indexError, f)) ∧
    (∀ (f : Flight) (t : String), relocate_passenger f "" t = (.error .indexError, f)) ∧
    (∀ (a : Aircraft) (s : String), s ≠ "" →
      ∀ e, parse_seat a s = .error e → e ≠ .indexError) := by
  refine ⟨fun a => parse_seat_empty a,
    fun f p => allocate_of_parse_error (parse_seat_empty f.aircraft) p,
    fun f t => relocate_of_parse_error_from (parse_seat_empty f.aircraft) t,
    fun a s hne e he => parse_seat_ne_indexError hne he⟩

/-- C6: with the source seat occupied and the destination empty,
relocating there and back succeeds and restores the original flight state
exactly. -/
theorem C6_relocate_round_trip :
    ∀ (f : Flight) (A B : String) (fr tr : Nat) (fl tl : Char) (v : String),
      WFFlightB f = true →
      parse_seat f.aircraft A = .ok (fr, fl) → parse_seat f.aircraft B = .ok (tr, tl) →
      getSeat f.seating fr fl = some v → getSeat f.seating tr tl = none →
      ∃ f2, relocate_passenger f A B = (.ok (), f2) ∧
        relocate_passenger f2 B A = (.ok (), f) := by
  intro f A B fr tr fl tl v hWF hA hB hocc hfree
  obtain ⟨hfb1, hfb2, hfmem⟩ := parse_seat_ok_inv hA
  obtain ⟨htb1, htb2, htmem⟩ := parse_seat_ok_inv hB
  have hWFs : WFSeatingB f.aircraft f.seating = true := hWF
  have hcells : ¬(fr = tr ∧ fl = tl) := by
    rintro ⟨h1, h2⟩
    rw [h1, h2, hfree] at hocc
    cases hocc
  have hcells' : ¬(tr = fr ∧ tl = fl) := fun ⟨h1, h2⟩ => hcells ⟨h1.symm, h2.symm⟩
  obtain ⟨rT0, hrT0, _⟩ := WF_row hWFs htb1 htb2
  have hWF1 : WFSeatingB f.aircraft (setSeat f.seating tr tl (some v)) = true :=
    WF_setSeat hWFs htb1 htb2 htmem _
  obtain ⟨rF1, hrF1, _⟩ := WF_row hWF1 hfb1 hfb2
  have hWF2 : WFSeatingB f.aircraft
      (setSeat (setSeat f.seating tr tl (some v)) fr fl none) = true :=
    WF_setSeat hWF1 hfb1 hfb2 hfmem _
  obtain ⟨rF2, hrF2, _⟩ := WF_row hWF2 hfb1 hfb2
  have hWF2' : WFSeatingB f.aircraft
      (setSeat (setSeat (setSeat f.seating tr tl (some v)) fr fl none) fr fl (some v)) =
        true := WF_setSeat hWF2 hfb1 hfb2 hfmem _
  obtain ⟨rT2, hrT2, _⟩ := WF_row hWF2' htb1 htb2
  have hWF3 : WFSeatingB f.aircraft
      (setSeat (setSeat (setSeat (setSeat f.seating tr tl (some v)) fr fl none)
        fr fl (some v)) tr tl none) = true := WF_setSeat hWF2' htb1 htb2 htmem _
  have hget_s2_tr :
      getSeat (setSeat (setSeat f.seating tr tl (some v)) fr fl none) tr tl = some v := by
    rw [getSeat_setSeat_ne hrF1 hcells' none, getSeat_setSeat_self hrT0 tl (some v)]
  have hget_s2_fr :
      getSeat (setSeat (setSeat f.seating tr tl (some v)) fr fl none) fr fl = none :=
    getSeat_setSeat_self hrF1 fl none
  refine ⟨{ f with seating := (setSeat (setSeat f.seating tr tl (some v)) fr fl none) },
    relocate_of_free hA hocc hB hfree, ?_⟩
  have hB2 : parse_seat ({ f with seating :=
      (setSeat (setSeat f.seating tr tl (some v)) fr fl none) } : Flight).aircraft B =
      .ok (tr, tl) := hB
  have hA2 : parse_seat ({ f with seating :=
      (setSeat (setSeat f.seating tr tl (some v)) fr fl none) } : Flight).aircraft A =
      .ok (fr, fl) := hA
  have hocc2 : getSeat ({ f with seating :=
      (setSeat (setSeat f.seating tr tl (some v)) fr fl none) } : Flight).seating tr tl =
      some v := hget_s2_tr
  have hfree2 : getSeat ({ f with seating :=
      (setSeat (setSeat f.seating tr tl (some v)) fr fl none) } : Flight).seating fr fl =
      none := hget_s2_fr
  rw [relocate_of_free hB2 hocc2 hA2 hfree2]
  have hseat : setSeat (setSeat (setSeat (setSeat f.seating tr tl (some v)) fr fl none)
      fr fl (some v)) tr tl none = f.seating := by
    refine seatingExt hWF3 hWFs ?_
    intro row c
    by_cases hT : row = tr ∧ c = tl
    · rw [hT.1, hT.2, getSeat_setSeat_self hrT2 tl none, hfree]
    · by_cases hF : row = fr ∧ c = fl
      · rw [hF.1, hF.2, getSeat_setSeat_ne hrT2 hcells none,
          getSeat_setSeat_self hrF2 fl (some v), hocc]
      · rw [getSeat_setSeat_ne hrT2 hT none, getSeat_setSeat_ne hrF2 hF (some v),
          getSeat_setSeat_ne hrF1 hF none, getSeat_setSeat_ne hrT0 hT (some v)]
  have hX : ({ f with seating := (setSeat (setSeat (setSeat (setSeat f.seating tr tl
      (some v)) fr fl none) fr fl (some v)) tr tl none) } : Flight) = f := by
    rw [hseat]
  rw [show ({ ({ f with seating := (setSeat (setSeat f.seating tr tl (some v)) fr fl
      none) } : Flight) with seating := (setSeat (setSeat (setSeat (setSeat f.seating
      tr tl (some v)) fr fl none) fr fl (some v)) tr tl none) } : Flight) =
      ({ f with seating := (setSeat (setSeat (setSeat (setSeat f.seating tr tl
      (some v)) fr fl none) fr fl (some v)) tr tl none) } : Flight) from rfl, hX]

/-- C8: every reachable flight state keeps the seating map keyed exactly by
the padding cell plus one dict per plan row whose key set equals the plan's
letter set with no duplicate keys (at most one occupant per seat), and a
freshly constructed flight has every seat empty. -/
theorem C8_key_set_invariant :
    (∀ f, Reachable f → KeySetInv f) ∧
    (∀ (N : String) (a : Aircraft) (f : Flight), mkFlight N a = .ok f →
      ∀ row c, getSeat f.seating row c = none) := by
  constructor
  · intro f hre
    have hWF : WFSeatingB f.aircraft f.seating = true := Reachable_WF hre
    refine ⟨WF_length hWF, WF_zero hWF, ?_⟩
    intro row h1 h2
    obtain ⟨r, hr, hkeys⟩ := WF_row hWF h1 h2
    refine ⟨r, hr, ?_, ?_⟩
    · intro c
      rw [hkeys, mem_dedupF]
    · rw [hkeys]
      exact nodup_dedupF _
  · intro N a f hmk row c
    rw [mkFlight_ok_inv hmk]
    exact getSeat_mkSeating a row c

/-! ### Lemmas: availability counting -/

theorem countRow_filter_keys : ∀ (r : SeatRow), (rowKeys r).Nodup →
    ((rowKeys r).filter (fun c => (rowLookup r c).isNone)).length = countNoneRow r := by
  intro r
  induction r with
  | nil => intro _; rfl
  | cons p t ih =>
    intro hnd
    have hk : rowKeys (p :: t) = p.1 :: rowKeys t := rfl
    rw [hk] at hnd ⊢
    have hnp : p.1 ∉ rowKeys t := (List.nodup_cons.mp hnd).1
    have hfc : (rowKeys t).filter (fun c => (rowLookup (p :: t) c).isNone) =
        (rowKeys t).filter (fun c => (rowLookup t c).isNone) := by
      refine List.filter_congr ?_
      intro c hc
      rw [rowLookup_cons, if_neg (fun he : p.1 = c => hnp (by rw [he]; exact hc))]
    have hhead : rowLookup (p :: t) p.1 = p.2 := by
      rw [rowLookup_cons, if_pos rfl]
    rw [List.filter_cons, countNoneRow_cons, hhead]
    cases hv : p.2.isNone with
    | true =>
      rw [if_pos rfl, if_pos rfl, List.length_cons, hfc, ih (List.nodup_cons.mp hnd).2]
      omega
    | false =>
      rw [if_neg (by simp), if_neg (by simp), hfc, ih (List.nodup_cons.mp hnd).2]
      omega

theorem length_filter_flatten (L : List (List α)) (p : α → Bool) :
    (L.flatten.filter p).length = (L.map (fun l => (l.filter p).length)).sum := by
  rw [List.filter_flatten, List.length_flatten, List.map_map]
  rfl

theorem sum_rows_aux : ∀ (rest : List (Option SeatRow)) (s : Seating) (start : Nat)
    (letters : List Char),
    (∀ k, k < rest.length → s[start + k]? = rest[k]?) →
    (∀ orow ∈ rest, ∃ r, orow = some r ∧ rowKeys r = dedupF letters) →
    ((List.range' start rest.length).map (fun row =>
      ((dedupF letters).filter (fun c => (getSeat s row c).isNone)).length)).sum =
      (rest.map rowCount).sum := by
  intro rest
  induction rest with
  | nil => intro s start letters _ _; simp
  | cons orow rest2 ih =>
    intro s start letters hidx hall
    obtain ⟨r, hor, hkeys⟩ := hall orow (by simp)
    subst hor
    have h0 : s[start]? = some (some r) := by
      have := hidx 0 (by simp)
      simpa using this
    rw [List.length_cons, List.range'_succ, List.map_cons, List.sum_cons,
      List.map_cons, List.sum_cons]
    have hhead : ((dedupF letters).filter (fun c => (getSeat s start c).isNone)).length =
        rowCount (some r) := by
      have hfc : (dedupF letters).filter (fun c => (getSeat s start c).isNone) =
          (dedupF letters).filter (fun c => (rowLookup r c).isNone) := by
        refine List.filter_congr ?_
        intro c _
        rw [getSeat_of_row h0]
      rw [hfc, ← hkeys, countRow_filter_keys r (hkeys ▸ nodup_dedupF letters)]
      rfl
    rw [hhead]
    congr 1
    refine ih s (start + 1) letters ?_ ?_
    · intro k hk
      have := hidx (k + 1) (by simpa using hk)
      rw [show start + (k + 1) = start + 1 + k by omega] at this
      simpa using this
    · intro orow2 h2
      exact hall orow2 (by simp [h2])

theorem num_counts_empty {f : Flight} (hWF : WFFlightB f = true) :
    num_seats_available f = ((seatCells f.aircraft).filter
      (fun rc => (getSeat f.seating rc.1 rc.2).isNone)).length := by
  have hWFs : WFSeatingB f.aircraft f.seating = true := hWF
  obtain ⟨rest, hs, hlen, hall⟩ := WF_destruct hWFs
  have hidx : ∀ k, k < rest.length → f.seating[1 + k]? = rest[k]? := by
    intro k _
    rw [hs, Nat.add_comm]
    exact List.getElem?_cons_succ
  have key := sum_rows_aux rest f.seating 1 f.aircraft.planLetters hidx hall
  have hR : ((seatCells f.aircraft).filter
      (fun rc => (getSeat f.seating rc.1 rc.2).isNone)).length =
      ((List.range' 1 f.aircraft.planRows).map (fun row =>
        ((dedupF f.aircraft.planLetters).filter
          (fun c => (getSeat f.seating row c).isNone)).length)).sum := by
    rw [seatCells, length_filter_flatten, List.map_map]
    unfold Aircraft.seatingRows
    have hmap : (List.range' 1 f.aircraft.planRows).map
        ((fun l => (l.filter (fun rc => (getSeat f.seating rc.1 rc.2).isNone)).length) ∘
          (fun row => (dedupF f.aircraft.planLetters).map (fun c => (row, c)))) =
        (List.range' 1 f.aircraft.planRows).map (fun row =>
          ((dedupF f.aircraft.planLetters).filter
            (fun c => (getSeat f.seating row c).isNone)).length) := by
      refine List.map_congr_left ?_
      intro row _
      show (((dedupF f.aircraft.planLetters).map (fun c => (row, c))).filter
        (fun rc => (getSeat f.seating rc.1 rc.2).isNone)).length = _
      rw [List.filter_map, List.length_map]
      rfl
    rw [hmap]
  have hnum0 : num_seats_available f = (rest.map rowCount).sum := by
    rw [num_seats_available, numSeating, hs, List.map_cons, List.sum_cons,
      show rowCount none = 0 from rfl, Nat.zero_add]
  rw [hnum0, hR, ← hlen, ← key]

theorem num_allocate {f : Flight} {s p : String} {f2 : Flight}
    (hWF : WFFlightB f = true) (h : allocate_seat f s p = (.ok (), f2)) :
    num_seats_available f2 + 1 = num_seats_available f := by
  obtain ⟨row, c, hp, hfree, hf2⟩ := allocate_ok_inv h
  obtain ⟨hb1, hb2, hmem⟩ := parse_seat_ok_inv hp
  have hWFs : WFSeatingB f.aircraft f.seating = true := hWF
  obtain ⟨r, hr, hkeys⟩ := WF_row hWFs hb1 hb2
  have hmemk : c ∈ rowKeys r := by
    rw [hkeys, mem_dedupF]
    exact hmem
  have hlook : rowLookup r c = none := by
    rw [← getSeat_of_row hr]
    exact hfree
  have hnum := num_setSeat hr (hkeys ▸ nodup_dedupF _) hmemk (some p)
  rw [hlook] at hnum
  simp at hnum
  rw [hf2]
  show numSeating (setSeat f.seating row c (some p)) + 1 = numSeating f.seating
  omega

theorem num_relocate {f : Flight} {A B : String} {f2 : Flight}
    (hWF : WFFlightB f = true) (h : relocate_passenger f A B = (.ok (), f2)) :
    num_seats_available f2 = num_seats_available f := by
  obtain ⟨fr, fl, tr, tl, v, hA, hocc, hB, hfree, hf2⟩ := relocate_ok_inv h
  obtain ⟨hfb1, hfb2, hfmem⟩ := parse_seat_ok_inv hA
  obtain ⟨htb1, htb2, htmem⟩ := parse_seat_ok_inv hB
  have hWFs : WFSeatingB f.aircraft f.seating = true := hWF
  have hcells : ¬(fr = tr ∧ fl = tl) := by
    rintro ⟨h1, h2⟩
    rw [h1, h2, hfree] at hocc
    cases hocc
  obtain ⟨rT, hrT, hkeysT⟩ := WF_row hWFs htb1 htb2
  have hlookT : rowLookup rT tl = none := by
    rw [← getSeat_of_row hrT]
    exact hfree
  have hnum1 := num_setSeat hrT (hkeysT ▸ nodup_dedupF _)
    (by rw [hkeysT, mem_dedupF]; exact htmem) (some v)
  rw [hlookT] at hnum1
  simp at hnum1
  have hWF1 : WFSeatingB f.aircraft (setSeat f.seating tr tl (some v)) = true :=
    WF_setSeat hWFs htb1 htb2 htmem _
  obtain ⟨rF, hrF, hkeysF⟩ := WF_row hWF1 hfb1 hfb2
  have hlookF : rowLookup rF fl = some v := by
    rw [← getSeat_of_row hrF, getSeat_setSeat_ne hrT hcells (some v)]
    exact hocc
  have hnum2 := num_setSeat hrF (hkeysF ▸ nodup_dedupF _)
    (by rw [hkeysF, mem_dedupF]; exact hfmem) (none : Option String)
  rw [hlookF] at hnum2
  simp at hnum2
  rw [hf2]
  show numSeating (setSeat (setSeat f.seating tr tl (some v)) fr fl none) =
    numSeating f.seating
  omega

/-- C5: numSeatsAvailable counts the empty entries of the whole seating
map, decreases by exactly one on each successful allocation, is invariant
under successful relocation, and returns 130 on a fresh AirbusA319 after
allocating seats 1C and 1D; relocating 1C to 2C then succeeds, leaving 1C
empty and 2C occupied by Tim. -/
theorem C5_num_seats_available :
    (∀ f : Flight, WFFlightB f = true → num_seats_available f =
      ((seatCells f.aircraft).filter
        (fun rc => (getSeat f.seating rc.1 rc.2).isNone)).length) ∧
    (∀ (f : Flight) (s p : String) (f2 : Flight), WFFlightB f = true →
      allocate_seat f s p = (.ok (), f2) →
      num_seats_available f2 + 1 = num_seats_available f) ∧
    (∀ (f : Flight) (A B : String) (f2 : Flight), WFFlightB f = true →
      relocate_passenger f A B = (.ok (), f2) →
      num_seats_available f2 = num_seats_available f) ∧
    (num_seats_available (Flight.mk "AB11" (airbusA319 "G-EUPT")
        (mkSeating (airbusA319 "G-EUPT"))) = 132 ∧
      (allocate_seat (Flight.mk "AB11" (airbusA319 "G-EUPT")
        (mkSeating (airbusA319 "G-EUPT"))) "1C" "Tim").1 = .ok () ∧
      (allocate_seat (allocate_seat (Flight.mk "AB11" (airbusA319 "G-EUPT")
        (mkSeating (airbusA319 "G-EUPT"))) "1C" "Tim").2 "1D" "John").1 = .ok () ∧
      num_seats_available (allocate_seat (allocate_seat (Flight.mk "AB11"
        (airbusA319 "G-EUPT") (mkSeating (airbusA319 "G-EUPT"))) "1C" "Tim").2
        "1D" "John").2 = 130 ∧
      (relocate_passenger (allocate_seat (allocate_seat (Flight.mk "AB11"
        (airbusA319 "G-EUPT") (mkSeating (airbusA319 "G-EUPT"))) "1C" "Tim").2
        "1D" "John").2 "1C" "2C").1 = .ok () ∧
      getSeat (relocate_passenger (allocate_seat (allocate_seat (Flight.mk "AB11"
        (airbusA319 "G-EUPT") (mkSeating (airbusA319 "G-EUPT"))) "1C" "Tim").2
        "1D" "John").2 "1C" "2C").2.seating 1 'C' = none ∧
      getSeat (relocate_passenger (allocate_seat (allocate_seat (Flight.mk "AB11"
        (airbusA319 "G-EUPT") (mkSeating (airbusA319 "G-EUPT"))) "1C" "Tim").2
        "1D" "John").2 "1C" "2C").2.seating 2 'C' = some "Tim") := by
  refine ⟨fun f hWF => num_counts_empty hWF,
    fun f s p f2 hWF h => num_allocate hWF h,
    fun f A B f2 hWF h => num_relocate hWF h,
    by decide, by decide, by decide, by decide, by decide, by decide, by decide⟩

/-! ### Lemmas: boarding cards -/

theorem pairLE_trans : ∀ (x y z : String × String), pairLE x y = true →
    pairLE y z = true → pairLE x z = true := by
  intro x y z h1 h2
  rw [pairLE, decide_eq_true_eq] at h1 h2 ⊢
  rcases h1 with h1 | ⟨e1, h1'⟩
  · rcases h2 with h2 | ⟨e2, _⟩
    · exact Or.inl (lt_trans h1 h2)
    · exact Or.inl (by rw [← e2]; exact h1)
  · rcases h2 with h2 | ⟨e2, h2'⟩
    · exact Or.inl (by rw [e1]; exact h2)
    · refine Or.inr ⟨e1.trans e2, ?_⟩
      rcases h1' with h1' | h1' <;> rcases h2' with h2' | h2'
      · exact Or.inl (lt_trans h1' h2')
      · exact Or.inl (by rw [← h2']; exact h1')
      · exact Or.inl (by rw [h1']; exact h2')
      · exact Or.inr (h1'.trans h2')

theorem pairLE_total : ∀ (x y : String × String), (pairLE x y || pairLE y x) = true := by
  intro x y
  rw [Bool.or_eq_true, pairLE, pairLE, decide_eq_true_eq, decide_eq_true_eq]
  rcases lt_trichotomy x.1 y.1 with h | h | h
  · exact Or.inl (Or.inl h)
  · rcases lt_trichotomy x.2 y.2 with h2 | h2 | h2
    · exact Or.inl (Or.inr ⟨h, Or.inl h2⟩)
    · exact Or.inl (Or.inr ⟨h, Or.inr h2⟩)
    · exact Or.inr (Or.inr ⟨h.symm, Or.inl h2⟩)
  · exact Or.inr (Or.inl h)

theorem cards_map_proj (f : Flight) :
    (make_boarding_cards f).map (fun t => (t.1, t.2.1)) =
      (passenger_seats f).mergeSort pairLE := by
  unfold make_boarding_cards
  rw [List.map_map]
  have hco : ((fun t : String × String × String × String => (t.1, t.2.1)) ∘
      (fun pc : String × String => (pc.1, pc.2, f.number, f.aircraft_model))) = id := by
    funext pc
    rfl
  rw [hco, List.map_id]

theorem seatName_inj {r1 r2 : Nat} {c1 c2 : Char}
    (h : seatName r1 c1 = seatName r2 c2) : r1 = r2 ∧ c1 = c2 := by
  unfold seatName at h
  have hdata : natChars r1 ++ [c1] = natChars r2 ++ [c2] := congrArg String.data h
  have hc : c1 = c2 := by
    have := congrArg List.getLast? hdata
    simpa [List.getLast?_concat] using this
  have hr : natChars r1 = natChars r2 := by
    have := congrArg List.dropLast hdata
    simpa [List.dropLast_concat] using this
  exact ⟨natChars_inj hr, hc⟩

theorem inner_eq_some {f : Flight} {row : Nat} {letter : Char} {x : String × String} :
    (match getSeat f.seating row letter with
      | some p => some (p, seatName row letter)
      | none => none) = some x ↔
    ∃ p, getSeat f.seating row letter = some p ∧ x = (p, seatName row letter) := by
  cases hget : getSeat f.seating row letter with
  | none => simp
  | some p => simp [eq_comm]

theorem mem_passenger_seats {f : Flight} {x : String × String} :
    x ∈ passenger_seats f ↔ ∃ row letter p, row ∈ f.aircraft.seatingRows ∧
      letter ∈ f.aircraft.planLetters ∧ getSeat f.seating row letter = some p ∧
      x = (p, seatName row letter) := by
  unfold passenger_seats
  rw [List.mem_flatten]
  constructor
  · rintro ⟨l, hl, hx⟩
    rw [List.mem_map] at hl
    obtain ⟨row, hrow, hlr⟩ := hl
    subst hlr
    rw [List.mem_filterMap] at hx
    obtain ⟨letter, hletter, heq⟩ := hx
    obtain ⟨p, hget, hxe⟩ := inner_eq_some.mp heq
    exact ⟨row, letter, p, hrow, hletter, hget, hxe⟩
  · rintro ⟨row, letter, p, hrow, hletter, hget, hxe⟩
    refine ⟨_, List.mem_map_of_mem _ hrow, ?_⟩
    rw [List.mem_filterMap]
    refine ⟨letter, hletter, ?_⟩
    rw [hget, hxe]

theorem passenger_seats_nodup {f : Flight} (hnd : f.aircraft.planLetters.Nodup) :
    (passenger_seats f).Nodup := by
  unfold passenger_seats
  rw [List.nodup_flatten]
  constructor
  · intro l hl
    rw [List.mem_map] at hl
    obtain ⟨row, _, hlr⟩ := hl
    subst hlr
    refine List.Nodup.filterMap ?_ hnd
    intro a a' b hb hb'
    rw [Option.mem_def] at hb hb'
    obtain ⟨p, _, hbe⟩ := inner_eq_some.mp hb
    obtain ⟨p', _, hbe'⟩ := inner_eq_some.mp hb'
    have hsn : seatName row a = seatName row a' := by
      have h2 : b.2 = seatName row a := by rw [hbe]
      have h2' : b.2 = seatName row a' := by rw [hbe']
      rw [← h2, h2']
    exact (seatName_inj hsn).2
  · rw [List.pairwise_map]
    rw [show f.aircraft.seatingRows = List.range' 1 f.aircraft.planRows from rfl]
    refine (List.pairwise_lt_range' 1 f.aircraft.planRows).imp ?_
    intro r1 r2 hlt x hx1 hx2
    rw [List.mem_filterMap] at hx1 hx2
    obtain ⟨l1, _, he1⟩ := hx1
    obtain ⟨l2, _, he2⟩ := hx2
    obtain ⟨p1, _, hx1e⟩ := inner_eq_some.mp he1
    obtain ⟨p2, _, hx2e⟩ := inner_eq_some.mp he2
    have hsn : seatName r1 l1 = seatName r2 l2 := by
      have h2 : x.2 = seatName r1 l1 := by rw [hx1e]
      have h2' : x.2 = seatName r2 l2 := by rw [hx2e]
      rw [← h2, h2']
    exact absurd (seatName_inj hsn).1 (Nat.ne_of_lt hlt)

/-- C7: makeBoardingCards hands the renderer exactly the occupied-seat
pairs (a permutation of passengerSeats, which enumerates each occupied seat
once — without duplicates whenever the plan's letters are distinct),
ordered lexicographically by (passenger, seat) with the passenger name as
the primary key, each tuple carrying the flight number and aircraft model;
with Bob at 2A and Alice at 1A, Alice's card is emitted first. -/
theorem C7_boarding_cards :
    (∀ f : Flight,
      ((make_boarding_cards f).map (fun t => (t.1, t.2.1))).Perm (passenger_seats f) ∧
      (make_boarding_cards f).Pairwise
        (fun x y => pairLE (x.1, x.2.1) (y.1, y.2.1) = true) ∧
      (∀ t ∈ make_boarding_cards f, t.2.2.1 = f.number ∧ t.2.2.2 = f.aircraft_model) ∧
      (∀ x : String × String, x ∈ passenger_seats f ↔
        ∃ row letter p, row ∈ f.aircraft.seatingRows ∧
          letter ∈ f.aircraft.planLetters ∧ getSeat f.seating row letter = some p ∧
          x = (p, seatName row letter)) ∧
      (f.aircraft.planLetters.Nodup → (passenger_seats f).Nodup)) ∧
    make_boarding_cards (allocate_seat (allocate_seat (Flight.mk "AB11"
        (airbusA319 "G-EUPT") (mkSeating (airbusA319 "G-EUPT"))) "2A" "Bob").2
        "1A" "Alice").2 =
      [("Alice", "1A", "AB11", "Airbus A319"), ("Bob", "2A", "AB11", "Airbus A319")] := by
  constructor
  · intro f
    refine ⟨?_, ?_, ?_, fun x => mem_passenger_seats, fun h => passenger_seats_nodup h⟩
    · rw [cards_map_proj]
      exact List.mergeSort_perm _ _
    · have hs := List.sorted_mergeSort pairLE_trans pairLE_total (passenger_seats f)
      unfold make_boarding_cards
      rw [List.pairwise_map]
      exact hs.imp (fun h => h)
    · intro t ht
      unfold make_boarding_cards at ht
      rw [List.mem_map] at ht
      obtain ⟨pc, _, hpc⟩ := ht
      rw [← hpc]
      exact ⟨rfl, rfl⟩
  · have hps : passenger_seats (allocate_seat (allocate_seat (Flight.mk "AB11"
        (airbusA319 "G-EUPT") (mkSeating (airbusA319 "G-EUPT"))) "2A" "Bob").2
        "1A" "Alice").2 = [("Alice", "1A"), ("Bob", "2A")] := by decide
    have hsorted : List.Pairwise (fun a b => pairLE a b = true)
        [(("Alice" : String), ("1A" : String)), ("Bob", "2A")] := by
      refine List.Pairwise.cons ?_ (List.pairwise_singleton _ _)
      intro y hy
      rw [List.mem_singleton] at hy
      subst hy
      rw [pairLE, decide_eq_true_eq]
      left
      rw [String.lt_iff_toList_lt]
      decide
    rw [make_boarding_cards, hps, List.mergeSort_of_sorted hsorted]
    decide

/-! ### Concrete states for the witnesses -/

/-- A freshly constructed AirbusA319 flight. -/
def wflight : Flight := ⟨"AB11", airbusA319 "G-EUPT", mkSeating (airbusA319 "G-EUPT")⟩

/-- The same flight after allocating seat 1C to Tim. -/
def wflight1 : Flight := (allocate_seat wflight "1C" "Tim").2

/-- Witness for C1 at a concrete relocation. -/
theorem C1_relocate_contract_witness :
    ∃ f2, relocate_passenger wflight1 "1C" "2C" = (.ok (), f2) ∧
      f2.number = wflight1.number ∧ f2.aircraft = wflight1.aircraft ∧
      getSeat f2.seating 2 'C' = some "Tim" ∧ getSeat f2.seating 1 'C' = none ∧
      ∀ row c, ¬(row = 1 ∧ c = 'C') → ¬(row = 2 ∧ c = 'C') →
        getSeat f2.seating row c = getSeat wflight1.seating row c :=
  (C1_relocate_contract wflight1 "1C" "2C" (by decide)).2.2.2.2 1 'C' "Tim" 2 'C'
    (by decide) (by decide) (by decide) (by decide)

/-- Witness for C2 at a concrete flight number. -/
theorem C2_flight_number_validation_witness :
    ∃ f, mkFlight "AB1234" (airbusA319 "G-EUPT") = .ok f :=
  (C2_flight_number_validation.1 "AB1234" (airbusA319 "G-EUPT")).1.mpr (by decide)

/-- Witness for C3 at a concrete bad letter and a concrete in-plan seat. -/
theorem C3_seat_parsing_witness :
    parse_seat (airbusA319 "G-EUPT") "12Z" = .error .invalidSeatLetter ∧
    parse_seat (airbusA319 "G-EUPT") (seatName 3 'C') = .ok (3, 'C') :=
  ⟨(C3_seat_parsing.1 (airbusA319 "G-EUPT") "12Z" 'Z' (by decide)).1 (by decide),
   C3_seat_parsing.2.1 (airbusA319 "G-EUPT") 3 'C' (by decide) (by decide) (by decide)⟩

/-- Witness for C4 at a concrete allocation. -/
theorem C4_allocate_contract_witness :
    ∃ f2, allocate_seat wflight "1A" "Pam" = (.ok (), f2) ∧
      f2.number = wflight.number ∧ f2.aircraft = wflight.aircraft ∧
      getSeat f2.seating 1 'A' = some "Pam" ∧
      (∀ r c, ¬(r = 1 ∧ c = 'A') →
        getSeat f2.seating r c = getSeat wflight.seating r c) ∧
      ∀ q, allocate_seat f2 "1A" q = (.error .seatTaken, f2) ∧
        getSeat f2.seating 1 'A' = some "Pam" :=
  (C4_allocate_contract wflight "1A" "Pam" 1 'A' (by decide) (by decide)).2 (by decide)

/-- Witness for C5: a concrete successful allocation decreases the count by
one. -/
theorem C5_num_seats_available_witness :
    num_seats_available (allocate_seat wflight "1C" "Tim").2 + 1 =
      num_seats_available wflight :=
  C5_num_seats_available.2.1 wflight "1C" "Tim" (allocate_seat wflight "1C" "Tim").2
    (by decide) (by decide)

/-- Witness for C6 at a concrete round trip. -/
theorem C6_relocate_round_trip_witness :
    ∃ f2, relocate_passenger wflight1 "1C" "2C" = (.ok (), f2) ∧
      relocate_passenger f2 "2C" "1C" = (.ok (), wflight1) :=
  C6_relocate_round_trip wflight1 "1C" "2C" 1 2 'C' 'C' "Tim" (by decide) (by decide)
    (by decide) (by decide) (by decide)

/-- Witness for C7: the concrete passenger list has no duplicates. -/
theorem C7_boarding_cards_witness : (passenger_seats wflight1).Nodup :=
  (C7_boarding_cards.1 wflight1).2.2.2.2 (by decide)

/-- Witness for C8 at a concrete constructed flight. -/
theorem C8_key_set_invariant_witness :
    KeySetInv wflight ∧ getSeat wflight.seating 1 'A' = none :=
  ⟨C8_key_set_invariant.1 wflight
      (Reachable.init "AB11" (airbusA319 "G-EUPT") wflight (by decide)),
   C8_key_set_invariant.2 "AB11" (airbusA319 "G-EUPT") wflight (by decide) 1 'A'⟩

/-- Witness for C9 at a concrete occupied seat. -/
theorem C9_self_relocation_witness :
    relocate_passenger wflight1 "1C" "1C" = (.error .seatTaken, wflight1) :=
  C9_self_relocation wflight1 "1C" 1 'C' "Tim" (by decide) (by decide)

/-- Witness for C10 at concrete seat strings. -/
theorem C10_empty_seat_string_witness :
    parse_seat (airbusA319 "G-EUPT") "" = .error .indexError ∧
    (.invalidSeatRow : FlightError) ≠ .indexError :=
  ⟨C10_empty_seat_string.1 (airbusA319 "G-EUPT"),
   C10_empty_seat_string.2.2.2 (airbusA319 "G-EUPT") "99A" (by decide) .invalidSeatRow
     (by decide)⟩

end AirTravel
